import Mathlib

/- Verification development for the TSDB storage layer and TSQL query layer
   of pydelphin (delphin/tsdb.py and delphin/tsql.py).  Strings are modelled
   as lists of characters; Python functions are translated as executable
   Lean definitions. -/

namespace PyDelphin

/- Strings are lists of characters. -/
abbrev Str := List Char

/- Helper turning a Lean string literal into the character-list model. -/
def str (s : String) : Str := s.toList

/- Model of Python str.replace(pat, rep) for a nonempty pattern: replaces
   non-overlapping occurrences scanning left to right; the replacement text
   is not rescanned.  (All patterns used in tsdb.py are nonempty.)  The
   fuel argument makes the recursion structural; it is initialized to the
   input length, which always suffices. -/
def pyReplaceF (pat rep : Str) : Nat → Str → Str
  | _, [] => []
  | 0, s => s
  | fuel + 1, c :: cs =>
    if pat ≠ [] ∧ pat.isPrefixOf (c :: cs) then
      rep ++ pyReplaceF pat rep fuel ((c :: cs).drop pat.length)
    else
      c :: pyReplaceF pat rep fuel cs

def pyReplace (pat rep : Str) (s : Str) : Str :=
  pyReplaceF pat rep s.length s

/- tsdb.FIELD_DELIMITER -/
def FIELD_DELIMITER : Char := '@'

/- tsdb.escape: string.replace(backslash, double backslash)
   .replace(newline, backslash n).replace(the field delimiter, backslash s),
   in that order. -/
def escape (s : Str) : Str :=
  pyReplace [FIELD_DELIMITER] ['\\', 's']
    (pyReplace ['\n'] ['\\', 'n']
      (pyReplace ['\\'] ['\\', '\\'] s))

/- tsdb.unescape: the same three substitutions undone in the same order,
   undoing the doubled backslash first. -/
def unescape (s : Str) : Str :=
  pyReplace ['\\', 's'] [FIELD_DELIMITER]
    (pyReplace ['\\', 'n'] ['\n']
      (pyReplace ['\\', '\\'] ['\\'] s))

/- A text is artifact-free when no backslash is immediately followed by the
   letter n or the letter s.  Such two-character runs collide with the escape
   sequences that escape introduces. -/
def artifactFree : Str → Bool
  | [] => true
  | [_] => true
  | a :: b :: rest =>
    !(a = '\\' && (b = 'n' || b = 's')) && artifactFree (b :: rest)

/- Concatenation of per-character expansions. -/
def cmap (f : Char → Str) : Str → Str
  | [] => []
  | c :: cs => f c ++ cmap f cs

/- Per-character effect of escape. -/
def escChar (c : Char) : Str :=
  if c = '\\' then ['\\', '\\']
  else if c = '\n' then ['\\', 'n']
  else if c = FIELD_DELIMITER then ['\\', 's']
  else [c]

/- Per-character state of the text after undoing the doubled backslashes. -/
def decChar1 (c : Char) : Str :=
  if c = '\\' then ['\\']
  else if c = '\n' then ['\\', 'n']
  else if c = FIELD_DELIMITER then ['\\', 's']
  else [c]

/- Per-character state after additionally undoing the newline escapes. -/
def decChar2 (c : Char) : Str :=
  if c = '\\' then ['\\']
  else if c = '\n' then ['\n']
  else if c = FIELD_DELIMITER then ['\\', 's']
  else [c]

/- Python exception kinds that the embedded code can raise. -/
inductive PyErr where
  | tsdbError (msg : Str)
  | schemaError (msg : Str)
  | tsqlSyntaxError (msg : Str)
  | valueError
  | keyError
  | attributeError
  | typeError
  | indexError
  | stopIteration
  | floatNotModeled
  | clockNotModeled
deriving DecidableEq, Repr

instance instDecEqExcept {ε α : Type} [DecidableEq ε] [DecidableEq α] :
    DecidableEq (Except ε α) := fun a b => by
  cases a with
  | ok x =>
    cases b with
    | ok y =>
      exact if h : x = y then isTrue (by rw [h])
            else isFalse (by intro he; injection he; contradiction)
    | error e => exact isFalse (fun he => Except.noConfusion he)
  | error e1 =>
    cases b with
    | ok y => exact isFalse (fun he => Except.noConfusion he)
    | error e2 =>
      exact if h : e1 = e2 then isTrue (by rw [h])
            else isFalse (by intro he; injection he; contradiction)

/- Python datetime values at second precision.  tsdb's date grammar and the
   strptime format used by _parse_datetime never produce sub-second
   precision, so microseconds are not modelled. -/
structure DateTime where
  year : Nat
  month : Nat
  day : Nat
  hour : Nat
  minute : Nat
  second : Nat
deriving DecidableEq, Repr

/- tsdb column values: None, int, str or datetime.  Python floats are
   IEEE-754 values and are outside this embedding; no claim exercises the
   :float datatype. -/
inductive Value where
  | null : Value
  | intv (i : Int) : Value
  | text (s : Str) : Value
  | date (d : DateTime) : Value
deriving DecidableEq, Repr

/- tsdb.TSDB_CODED_ATTRIBUTES -/
def TSDB_CODED_ATTRIBUTES : List (Str × Str) :=
  [(str "i-wf", str "1"), (str "i-difficulty", str "1"), (str "polarity", str "-1")]

/- The month-number-to-abbreviation half of tsdb._MONTHS.  A Python
   datetime always has month 1..12, so the out-of-range default is
   unreachable when applied to a datetime's month. -/
def monthAbbrev (m : Nat) : Str :=
  match m with
  | 1 => str "jan" | 2 => str "feb" | 3 => str "mar" | 4 => str "apr"
  | 5 => str "may" | 6 => str "jun" | 7 => str "jul" | 8 => str "aug"
  | 9 => str "sep" | 10 => str "oct" | 11 => str "nov" | 12 => str "dec"
  | _ => []

/- The abbreviation-to-month-number half of tsdb._MONTHS. -/
def MONTH_BY_NAME : List (Str × Nat) :=
  [(str "jan", 1), (str "feb", 2), (str "mar", 3), (str "apr", 4),
   (str "may", 5), (str "jun", 6), (str "jul", 7), (str "aug", 8),
   (str "sep", 9), (str "oct", 10), (str "nov", 11), (str "dec", 12)]

/- tsdb.Field, with is_key and default computed as in Field.__init__.
   The default attribute is named dflt here. -/
structure Field where
  name : Str
  datatype : Str
  flags : List Str
  comment : Option Str
  isKey : Bool
  dflt : Str
deriving DecidableEq, Repr

/- Field.__init__: derive is_key from the flags and the default from the
   coded-attribute table, falling back to "-1" for :integer and "" else. -/
def mkField (name datatype : Str) (flags : List Str) (comment : Option Str) : Field :=
  { name := name
    datatype := datatype
    flags := flags
    comment := comment
    isKey := flags.any (fun fl =>
      fl == str ":key" || fl == str ":primary" || (str ":foreign").isPrefixOf fl)
    dflt :=
      match TSDB_CODED_ATTRIBUTES.lookup name with
      | some v => v
      | none => if datatype = str ":integer" then str "-1" else [] }

/- Decimal digit helpers. -/
def digitVal (c : Char) : Nat := c.toNat - 48

def digitsToNat (s : Str) : Nat := s.foldl (fun acc c => acc * 10 + digitVal c) 0

/- Decimal representation of a natural number (Python str(int) for n >= 0).
   The fuel makes the recursion structural; n + 1 always suffices. -/
def natReprAux : Nat → Nat → Str
  | 0, _ => []
  | fuel + 1, n =>
    if n < 10 then [Nat.digitChar n]
    else natReprAux fuel (n / 10) ++ [Nat.digitChar (n % 10)]

def natRepr (n : Nat) : Str := natReprAux (n + 1) n

/- Python str() of an int. -/
def intRepr (i : Int) : Str :=
  if i < 0 then '-' :: natRepr i.natAbs else natRepr i.toNat

/- Zero-padded two-digit and four-digit decimal forms (strftime %H etc.). -/
def pad2 (n : Nat) : Str := if n < 10 then '0' :: natRepr n else natRepr n

def pad4 (n : Nat) : Str :=
  if n < 10 then str "000" ++ natRepr n
  else if n < 100 then str "00" ++ natRepr n
  else if n < 1000 then '0' :: natRepr n
  else natRepr n

/- Python str(datetime): the ISO form with a space separator. -/
def isoStr (d : DateTime) : Str :=
  pad4 d.year ++ '-' :: pad2 d.month ++ '-' :: pad2 d.day
    ++ ' ' :: pad2 d.hour ++ ':' :: pad2 d.minute ++ ':' :: pad2 d.second

/- Python str() of a value. -/
def pyStr : Value → Str
  | .null => str "None"
  | .intv i => intRepr i
  | .text s => s
  | .date d => isoStr d

/- Python ASCII whitespace (the characters matched by str.strip() and by
   the regex class backslash-s for the inputs arising here). -/
def isPySpace (c : Char) : Bool :=
  c = ' ' || c = '\t' || c = '\n' || c = '\r' || c = '\x0b' || c = '\x0c'

def stripStr (s : Str) : Str :=
  ((s.dropWhile isPySpace).reverse.dropWhile isPySpace).reverse

/- Python int(str): optional sign, decimal digits with single underscores
   allowed between digits.  (Unicode digits are not modelled; no input here
   contains them.) -/
def parseDigitsUAux (acc : Nat) : Str → Option Nat
  | [] => some acc
  | c :: rest =>
    if c.isDigit then parseDigitsUAux (acc * 10 + digitVal c) rest
    else if c = '_' then
      match rest with
      | c2 :: rest2 =>
        if c2.isDigit then parseDigitsUAux (acc * 10 + digitVal c2) rest2 else none
      | [] => none
    else none

def parseDigitsU (s : Str) : Option Nat :=
  match s with
  | [] => none
  | c :: rest => if c.isDigit then parseDigitsUAux (digitVal c) rest else none

def pyIntCore : Str → Except PyErr Int
  | [] => .error .valueError
  | c :: rest =>
    if c = '+' then
      match parseDigitsU rest with
      | some n => .ok (n : Int)
      | none => .error .valueError
    else if c = '-' then
      match parseDigitsU rest with
      | some n => .ok (-(n : Int))
      | none => .error .valueError
    else
      match parseDigitsU (c :: rest) with
      | some n => .ok (n : Int)
      | none => .error .valueError

def pyInt (s : Str) : Except PyErr Int := pyIntCore (stripStr s)

/- tsdb.format for the :date branch: strftime with pattern
   day-monthname-%Y, appending %H:%M:%S only for a non-midnight time.
   (%Y is modelled as the plain decimal year; for years below 1000 the
   Python behavior is platform-dependent and the claims only use
   four-digit years.) -/
def dateFormatTSDB (d : DateTime) : Str :=
  natRepr d.day ++ '-' :: monthAbbrev d.month ++ '-' :: natRepr d.year
    ++ (if d.hour = 0 ∧ d.minute = 0 ∧ d.second = 0 then []
        else ' ' :: pad2 d.hour ++ ':' :: pad2 d.minute ++ ':' :: pad2 d.second)

/- tsdb.format: None maps to the default (or the datatype default when no
   default is given); datetimes with the :date datatype use the TSDB date
   form; everything else stringifies. -/
def format (datatype : Str) (v : Value) (dflt : Option Str) : Str :=
  match v with
  | .null =>
    match dflt with
    | none => if datatype = str ":integer" then str "-1" else []
    | some d => d
  | .date dt => if datatype = str ":date" then dateFormatTSDB dt else pyStr (.date dt)
  | v => pyStr v

/- The named groups of tsdb._parse_datetime's two regular expressions. -/
structure DateGroups where
  y : Str
  m : Str
  d : Option Str
  H : Option Str
  M : Option Str
  S : Option Str
deriving DecidableEq, Repr

/- Exactly k decimal digits. -/
def takeExactDigits : Nat → Str → Option (Str × Str)
  | 0, s => some ([], s)
  | k + 1, c :: rest =>
    if c.isDigit then (takeExactDigits k rest).map (fun p => (c :: p.1, p.2)) else none
  | _ + 1, [] => none

/- Greedy [0-9]-braces-1-2: two digits if available, else one. -/
def takeDigits1or2 (s : Str) : Option (Str × Str) :=
  match s with
  | c1 :: c2 :: rest =>
    if c1.isDigit then
      (if c2.isDigit then some ([c1, c2], rest) else some ([c1], c2 :: rest))
    else none
  | [c1] => if c1.isDigit then some ([c1], []) else none
  | [] => none

/- ASCII model of the regex word-character class. -/
def isWordChar (c : Char) : Bool := c.isAlphanum || c = '_'

/- Exactly three word characters. -/
def takeWord3 (s : Str) : Option (Str × Str) :=
  match s with
  | a :: b :: c :: rest =>
    if isWordChar a && isWordChar b && isWordChar c then some ([a, b, c], rest)
    else none
  | _ => none

/- The optional opening and closing parentheses of the time group. -/
def parenSkip (s : Str) : Str := if s.head? = some '(' then s.tail else s

def closeParenSkip (s : Str) : Str := if s.head? = some ')' then s.tail else s

/- The optional :SS tail and closing parenthesis of the time group. -/
def matchTimeFinish (hh mm : Str) (r3 : Str) :
    (Option Str × Option Str × Option Str) × Str :=
  match r3 with
  | ':' :: r3b =>
    match takeExactDigits 2 r3b with
    | some (s2, r5) => ((some hh, some mm, some s2), closeParenSkip r5)
    | none => ((some hh, some mm, none), closeParenSkip r3)
  | _ => ((some hh, some mm, none), closeParenSkip r3)

/- The optional time group of both date regexes: optional whitespace, an
   optional opening parenthesis, HH:MM, an optional :SS and an optional
   closing parenthesis.  Failure consumes nothing. -/
def matchTimeOpt (s : Str) : (Option Str × Option Str × Option Str) × Str :=
  match takeExactDigits 2 (parenSkip (s.dropWhile isPySpace)) with
  | none => ((none, none, none), s)
  | some (hh, r1) =>
    match r1 with
    | ':' :: r2 =>
      match takeExactDigits 2 r2 with
      | none => ((none, none, none), s)
      | some (mm, r3) => matchTimeFinish hh mm r3
    | _ => ((none, none, none), s)

/- The YYYY-first pattern of _parse_datetime (a prefix match; trailing
   input is ignored).  After the month everything is optional, so the
   greedy digit and alternation choices are final. -/
def matchYMD (s : Str) : Option DateGroups :=
  match takeExactDigits 4 s with
  | none => none
  | some (y, r1) =>
    match r1 with
    | '-' :: r2 =>
      let mPart :=
        match takeDigits1or2 r2 with
        | some p => some p
        | none => takeWord3 r2
      match mPart with
      | none => none
      | some (m, r3) =>
        let dp : Option Str × Str :=
          match r3 with
          | '-' :: r3b =>
            match takeDigits1or2 r3b with
            | some (d, r5) => (some d, r5)
            | none => (none, r3)
          | _ => (none, r3)
        let t := matchTimeOpt dp.2
        some { y := y, m := m, d := dp.1, H := t.1.1, M := t.1.2.1, S := t.1.2.2 }
    | _ => none

/- One or two digits followed by a dash.  The two cases are mutually
   exclusive, which collapses the regex backtracking. -/
def digitsThenDash (s : Str) : Option (Str × Str) :=
  match s with
  | c1 :: c2 :: c3 :: rest =>
    if c1.isDigit && c2.isDigit && c3 = '-' then some ([c1, c2], rest)
    else if c1.isDigit && c2 = '-' then some ([c1], c3 :: rest)
    else none
  | [c1, c2] => if c1.isDigit && c2 = '-' then some ([c1], []) else none
  | _ => none

/- The month alternation of the day-first pattern followed by its dash:
   one-or-two digits, else three word characters.  A dash is never a word
   character, so the alternatives are mutually exclusive. -/
def mThenDash (s : Str) : Option (Str × Str) :=
  match digitsThenDash s with
  | some p => some p
  | none =>
    match takeWord3 s with
    | some (w, r) =>
      match r with
      | '-' :: r2 => some (w, r2)
      | _ => none
    | none => none

/- The year of the day-first pattern: four digits if available, else two. -/
def takeY (s : Str) : Option (Str × Str) :=
  match takeExactDigits 4 s with
  | some p => some p
  | none => takeExactDigits 2 s

def matchMYTail (dOpt : Option Str) (s : Str) : Option DateGroups :=
  match mThenDash s with
  | none => none
  | some (m, r1) =>
    match takeY r1 with
    | none => none
    | some (y, r2) =>
      let t := matchTimeOpt r2
      some { y := y, m := m, d := dOpt, H := t.1.1, M := t.1.2.1, S := t.1.2.2 }

/- The day-first pattern of _parse_datetime: an optional leading day-dash
   group (dropped entirely, as the regex engine does, when the rest of the
   pattern cannot match after it), then month-dash-year and the optional
   time. -/
def matchDMY (s : Str) : Option DateGroups :=
  match digitsThenDash s with
  | some (d, r) =>
    match matchMYTail (some d) r with
    | some g => some g
    | none => matchMYTail none s
  | none => matchMYTail none s

def toLowerStr (s : Str) : Str := s.map Char.toLower

/- tsdb._date_fix: pivot two-digit years at 93, map three-letter months
   through the month table (a missing entry is Python's KeyError), default
   the day to 01 and the time to 00:00:00, and rebuild the string in
   %Y-%m-%d %H:%M:%S order.  The year group is always all digits, so
   int(y) is digitsToNat. -/
def dateFixYear (y : Str) : Str :=
  if y.length = 2
  then (if 93 ≤ digitsToNat y then str "19" ++ y else str "20" ++ y)
  else y

def dateFixMonth (m : Str) : Except PyErr Str :=
  if m.length = 3
  then
    match MONTH_BY_NAME.lookup (toLowerStr m) with
    | some n => Except.ok (natRepr n)
    | none => Except.error PyErr.keyError
  else Except.ok m

def dateFix (g : DateGroups) : Except PyErr Str :=
  match dateFixMonth g.m with
  | .error e => .error e
  | .ok m =>
    .ok (dateFixYear g.y ++ '-' :: m ++ '-' :: g.d.getD (str "01")
      ++ ' ' :: g.H.getD (str "00") ++ ':' :: g.M.getD (str "00")
      ++ ':' :: g.S.getD (str "00"))

/- One literal character. -/
def lit (c : Char) (s : Str) : Option Str :=
  match s with
  | x :: r => if x = c then some r else none
  | [] => none

/- The strptime %m field: 1[0-2], 0[1-9] or [1-9]. -/
def strpMonth (s : Str) : Option (Nat × Str) :=
  match s with
  | c1 :: c2 :: rest =>
    if c1 = '1' && ('0' ≤ c2 && c2 ≤ '2') then some (10 + digitVal c2, rest)
    else if c1 = '0' && ('1' ≤ c2 && c2 ≤ '9') then some (digitVal c2, rest)
    else if '1' ≤ c1 && c1 ≤ '9' then some (digitVal c1, c2 :: rest)
    else none
  | [c1] => if '1' ≤ c1 && c1 ≤ '9' then some (digitVal c1, []) else none
  | [] => none

/- The strptime %d field: 3[01], [1-2] digit, 0[1-9] or [1-9]. -/
def strpDay (s : Str) : Option (Nat × Str) :=
  match s with
  | c1 :: c2 :: rest =>
    if c1 = '3' && (c2 = '0' || c2 = '1') then some (30 + digitVal c2, rest)
    else if ('1' ≤ c1 && c1 ≤ '2') && c2.isDigit
    then some (digitVal c1 * 10 + digitVal c2, rest)
    else if c1 = '0' && ('1' ≤ c2 && c2 ≤ '9') then some (digitVal c2, rest)
    else if '1' ≤ c1 && c1 ≤ '9' then some (digitVal c1, c2 :: rest)
    else none
  | [c1] => if '1' ≤ c1 && c1 ≤ '9' then some (digitVal c1, []) else none
  | [] => none

/- The strptime %H field: 2[0-3], [0-1] digit, or a single digit. -/
def strpHour (s : Str) : Option (Nat × Str) :=
  match s with
  | c1 :: c2 :: rest =>
    if c1 = '2' && ('0' ≤ c2 && c2 ≤ '3') then some (20 + digitVal c2, rest)
    else if ('0' ≤ c1 && c1 ≤ '1') && c2.isDigit
    then some (digitVal c1 * 10 + digitVal c2, rest)
    else if c1.isDigit then some (digitVal c1, c2 :: rest)
    else none
  | [c1] => if c1.isDigit then some (digitVal c1, []) else none
  | [] => none

/- The strptime %M field: [0-5] digit or a single digit. -/
def strpMin (s : Str) : Option (Nat × Str) :=
  match s with
  | c1 :: c2 :: rest =>
    if ('0' ≤ c1 && c1 ≤ '5') && c2.isDigit
    then some (digitVal c1 * 10 + digitVal c2, rest)
    else if c1.isDigit then some (digitVal c1, c2 :: rest)
    else none
  | [c1] => if c1.isDigit then some (digitVal c1, []) else none
  | [] => none

/- The strptime %S field: 6[0-1], [0-5] digit, or a single digit. -/
def strpSec (s : Str) : Option (Nat × Str) :=
  match s with
  | c1 :: c2 :: rest =>
    if c1 = '6' && ('0' ≤ c2 && c2 ≤ '1') then some (60 + digitVal c2, rest)
    else if ('0' ≤ c1 && c1 ≤ '5') && c2.isDigit
    then some (digitVal c1 * 10 + digitVal c2, rest)
    else if c1.isDigit then some (digitVal c1, c2 :: rest)
    else none
  | [c1] => if c1.isDigit then some (digitVal c1, []) else none
  | [] => none

def strpYear (s : Str) : Option (Nat × Str) :=
  (takeExactDigits 4 s).map (fun p => (digitsToNat p.1, p.2))

/- The strptime literal space: one or more whitespace characters. -/
def wsPlus (s : Str) : Option Str :=
  match s with
  | c :: rest => if isPySpace c then some (rest.dropWhile isPySpace) else none
  | [] => none

def isLeapYear (y : Nat) : Bool := (y % 4 = 0 && y % 100 ≠ 0) || y % 400 = 0

def daysInMonth (y m : Nat) : Nat :=
  if m = 2 then (if isLeapYear y then 29 else 28)
  else if m = 4 || m = 6 || m = 9 || m = 11 then 30
  else 31

/- datetime.strptime(s, %Y-%m-%d %H:%M:%S): the whole string must match,
   and the datetime constructor validates the year, the day of month and
   rejects leap seconds. -/
def strptimeYmdHMS (s : Str) : Except PyErr DateTime :=
  match strpYear s with
  | none => .error .valueError
  | some (y, r1) =>
    match lit '-' r1 with
    | none => .error .valueError
    | some r2 =>
      match strpMonth r2 with
      | none => .error .valueError
      | some (m, r3) =>
        match lit '-' r3 with
        | none => .error .valueError
        | some r4 =>
          match strpDay r4 with
          | none => .error .valueError
          | some (d, r5) =>
            match wsPlus r5 with
            | none => .error .valueError
            | some r6 =>
              match strpHour r6 with
              | none => .error .valueError
              | some (hh, r7) =>
                match lit ':' r7 with
                | none => .error .valueError
                | some r8 =>
                  match strpMin r8 with
                  | none => .error .valueError
                  | some (mi, r9) =>
                    match lit ':' r9 with
                    | none => .error .valueError
                    | some r10 =>
                      match strpSec r10 with
                      | none => .error .valueError
                      | some (ss, r11) =>
                        if r11 = [] ∧ 1 ≤ y ∧ d ≤ daysInMonth y m ∧ ss ≤ 59
                        then .ok ⟨y, m, d, hh, mi, ss⟩
                        else .error .valueError

/- The today/now prefix check of _parse_datetime. -/
def nowPattern (s : Str) : Bool :=
  let t := if s.head? = some ':' then s.tail else s
  (str "today").isPrefixOf t || (str "now").isPrefixOf t

/- tsdb._parse_datetime.  A today/now prefix makes Python return the
   current wall-clock time, which is outside the embedding and is mapped
   to a distinguished error; no claim exercises that branch. -/
def parseDatetime (s : Str) : Except PyErr DateTime :=
  if nowPattern s then .error .clockNotModeled
  else
    match matchYMD s with
    | some g =>
      match dateFix g with
      | .ok fixed => strptimeYmdHMS fixed
      | .error e => .error e
    | none =>
      match matchDMY s with
      | some g =>
        match dateFix g with
        | .ok fixed => strptimeYmdHMS fixed
        | .error e => .error e
      | none => strptimeYmdHMS s

/- tsdb.cast: None or the empty string casts to None regardless of the
   datatype; otherwise dispatch on the datatype tag.  The :float branch
   calls Python float(), which is outside the embedding; no claim
   exercises it. -/
def cast (datatype : Str) (raw : Option Str) : Except PyErr Value :=
  match raw with
  | none => .ok .null
  | some s =>
    if s = [] then .ok .null
    else if datatype = str ":integer" then (pyInt s).map .intv
    else if datatype = str ":float" then .error .floatNotModeled
    else if datatype = str ":date" then (parseDatetime s).map .date
    else if datatype = str ":string" then .ok (.text s)
    else .error (.tsdbError (str "invalid datatype"))

/- Python str.split(delim) for a single-character delimiter: the empty
   string splits to one empty column. -/
def pySplit (delim : Char) : Str → List Str
  | [] => [[]]
  | c :: cs =>
    if c = delim then [] :: pySplit delim cs
    else
      match pySplit delim cs with
      | r :: rs => (c :: r) :: rs
      | [] => [[c]]

def joinDelim : List Str → Str
  | [] => []
  | [x] => x
  | x :: y :: rest => x ++ FIELD_DELIMITER :: joinDelim (y :: rest)

/- str.rstrip backslash-n: drop trailing newlines. -/
def rstripNl (s : Str) : Str := (s.reverse.dropWhile (· = '\n')).reverse

/- tsdb.encode: format each value (None becomes the field default), escape
   it, and join on the field delimiter; a length mismatch with the fields
   is a TSDBError. -/
def encode (values : List Value) (fields : Option (List Field)) : Except PyErr Str :=
  match fields with
  | some fs =>
    if values.length ≠ fs.length then .error (.tsdbError (str "mismatched counts"))
    else .ok (joinDelim (((fs.zip values).map
      (fun p => format p.1.datatype p.2 (some p.1.dflt))).map escape))
  | none =>
    .ok (joinDelim ((values.map (fun v =>
      match v with
      | .null => []
      | v => pyStr v)).map escape))

/- tsdb.decode: strip trailing newlines, split on the field delimiter,
   unescape each nonempty column (an empty column is None), and, when
   fields are given, check the column count and cast each column. -/
def decode (line : Str) (fields : Option (List Field)) : Except PyErr (List Value) :=
  let raw : List (Option Str) :=
    (pySplit FIELD_DELIMITER (rstripNl line)).map
      (fun c => if c = [] then none else some (unescape c))
  match fields with
  | some fs =>
    if raw.length ≠ fs.length then .error (.tsdbError (str "mismatched counts"))
    else (raw.zip fs).mapM (fun p => cast p.2.datatype p.1)
  | none =>
    .ok (raw.map (fun c =>
      match c with
      | none => Value.null
      | some s => Value.text s))

/- A datetime value that Python's datetime type could hold, restricted to
   four-digit years (strftime %Y for earlier years is platform-dependent). -/
def ValidDate (dt : DateTime) : Prop :=
  1000 ≤ dt.year ∧ dt.year ≤ 9999 ∧ 1 ≤ dt.month ∧ dt.month ≤ 12
  ∧ 1 ≤ dt.day ∧ dt.day ≤ daysInMonth dt.year dt.month
  ∧ dt.hour ≤ 23 ∧ dt.minute ≤ 59 ∧ dt.second ≤ 59

/- Value and field pairs for which the encode-decode round trip holds:
   the value is non-null and matches the field's datatype; strings must be
   nonempty and artifact-free; dates must be valid datetimes with
   four-digit years. -/
def GoodPair (f : Field) (v : Value) : Prop :=
  (f.datatype = str ":integer" ∧ ∃ i, v = .intv i)
  ∨ (f.datatype = str ":string" ∧ ∃ s, v = .text s ∧ s ≠ [] ∧ artifactFree s = true)
  ∨ (f.datatype = str ":date" ∧ ∃ dt, v = .date dt ∧ ValidDate dt)

/- tsdb.make_field_index: field name to tuple index; with duplicate
   names the later field wins, as in a dict comprehension. -/
def make_field_index (fields : List Field) : List (Str × Nat) :=
  fields.enum.map (fun p => (p.2.name, p.1))

def dictLookup (l : List (Str × Nat)) (k : Str) : Option Nat :=
  l.reverse.lookup k

/- Relation.column_index: look the name up in the field index; a
   missing name is a KeyError. -/
def column_index (fields : List Field) (name : Str) : Except PyErr Nat :=
  match dictLookup (make_field_index fields) name with
  | some i => .ok i
  | none => .error .keyError

/- Relation.__iter__: decode each line of the relation file without
   passing the schema's fields, so no datatype casting happens.  The
   relation is modeled by the list of lines of its file. -/
def relationIter (lines : List Str) : List (Except PyErr (List Value)) :=
  lines.map (fun l => decode l none)

/- A Python tuple index lookup: out of range raises IndexError. -/
def pyIndex (r : List Value) (i : Nat) : Except PyErr Value :=
  match r.get? i with
  | some v => .ok v
  | none => .error .indexError

/- Relation.select resolves each name via column_index, turning a
   KeyError into a TSDBError. -/
def resolveIndex (fields : List Field) (n : Str) : Except PyErr Nat :=
  match column_index fields n with
  | .ok i => .ok i
  | .error _ => .error (PyErr.tsdbError (str "no such field"))

/- The projection select applies to each record it iterates. -/
def projectRecord (indices : List Nat) (l : Str) : Except PyErr (List Value) :=
  match decode l none with
  | .ok record => indices.mapM (fun i => pyIndex record i)
  | .error e => .error e

/- Relation.select: with no names, identical to iteration; otherwise
   resolve the names to column indices and project every decoded
   record onto them. -/
def relationSelect (fields : List Field) (lines : List Str)
    (names : List Str) : Except PyErr (List (List Value)) :=
  match names with
  | [] => lines.mapM (fun l => decode l none)
  | _ :: _ =>
    match names.mapM (resolveIndex fields) with
    | .error e => .error e
    | .ok indices => lines.mapM (projectRecord indices)

/- One on-disk file of a table: its size in bytes, its modification
   time, and whether it holds gzip-compressed content. -/
structure DiskFile where
  size : Nat
  mtime : Nat
  compressed : Bool
deriving DecidableEq, Repr

/- The two candidate files of one table: the plain-text path and the
   .gz path; none means the file does not exist. -/
structure TableFiles where
  tx : Option DiskFile
  gz : Option DiskFile
deriving DecidableEq, Repr

/- tsdb._get_paths use_gz flag: prefer the .gz file when it exists and
   the text file is absent or older. -/
def use_gz (st : TableFiles) : Bool :=
  match st.gz with
  | none => false
  | some g =>
    match st.tx with
    | none => true
    | some t => decide (g.mtime > t.mtime)

/- Bytes the temp file holds: each encoded line plus its newline. -/
def tmpLenOf (lines : List Str) : Nat :=
  lines.foldl (fun acc l => acc + l.length + 1) 0

/- tsdb.write dest selection: the .gz path when gzip was requested. -/
def destOf (gz : Bool) (st : TableFiles) : Option DiskFile :=
  if gz then st.gz else st.tx

/- tsdb.write append_nonempty: appending onto an existing nonempty
   destination. -/
def appendNonemptyOf (append : Bool) (dest : Option DiskFile) : Bool :=
  append && match dest with
            | some d => decide (0 < d.size)
            | none => false

/- The destination file after the copy: append adds the written bytes
   and keeps any compressed content already present; otherwise the file
   is truncated and holds exactly what was written. -/
def newDestOf (append : Bool) (dest : Option DiskFile) (written : Nat)
    (gzF : Bool) (now : Nat) : DiskFile :=
  match dest with
  | some d =>
    if append then
      { size := d.size + written, mtime := now,
        compressed := (decide (0 < d.size) && d.compressed) || gzF }
    else { size := written, mtime := now, compressed := gzF }
  | none => { size := written, mtime := now, compressed := gzF }

/- tsdb.write as a transition on the table's files.  Bytes are
   abstracted to counts; a gzip stream wraps its payload in a constant
   20 bytes of header and trailer, so a gzip write is nonempty even for
   an empty payload.  The dir check precedes everything; encode errors
   surface while filling the temp file; the destination path is chosen
   by the original gzip request, while the final gzip flag additionally
   requires a nonempty temp file or a nonempty append target; the other
   file is unlinked at the end. -/
def encodeLines (records : List (List Value)) (fields : List Field) :
    Except PyErr (List Str) :=
  records.mapM (fun r => encode r (some fields))

def writeTable (dirOk : Bool) (st : TableFiles)
    (records : List (List Value)) (fields : List Field)
    (append : Bool) (gzipOpt : Option Bool) (now : Nat) :
    Except PyErr TableFiles :=
  if dirOk then
    match encodeLines records fields with
    | .error e => .error e
    | .ok lines =>
      let gzip0 := gzipOpt.getD (use_gz st)
      let tmpLen := tmpLenOf lines
      let dest := destOf gzip0 st
      let an := appendNonemptyOf append dest
      let gzF := gzip0 && (decide (tmpLen ≠ 0) || an)
      let written := if gzF then tmpLen + 20 else tmpLen
      let nd := newDestOf append dest written gzF now
      .ok (if gzip0 then { tx := none, gz := some nd }
           else { tx := some nd, gz := none })
  else .error (.tsdbError (str "invalid test suite directory"))

/- The characters at which Python str.splitlines ends a line: LF, CR,
   VT, FF, FS, GS, RS, NEL, LINE SEPARATOR and PARAGRAPH SEPARATOR
   ("\r\n" counts as a single boundary below). -/
def isLineBoundary (c : Char) : Bool :=
  c = '\n' || c = '\r' || c = '\x0b' || c = '\x0c' || c = '\x1c' ||
  c = '\x1d' || c = '\x1e' || c = '\x85' || c = '\u2028' || c = '\u2029'

/- Python str.splitlines: a line ends at every boundary character, a
   "\r\n" pair is one boundary (the flag records that a CR was just
   consumed, so an immediately following LF is skipped), and a trailing
   boundary leaves no trailing empty line. -/
def splitlinesAux : Str → Bool → Str → List Str
  | [], _, acc => if acc = [] then [] else [acc.reverse]
  | c :: cs, afterCR, acc =>
    if c = '\n' then
      if afterCR then splitlinesAux cs false acc
      else acc.reverse :: splitlinesAux cs false []
    else if c = '\r' then acc.reverse :: splitlinesAux cs true []
    else if isLineBoundary c then acc.reverse :: splitlinesAux cs false []
    else splitlinesAux cs false (c :: acc)

def pySplitlines (s : Str) : List Str := splitlinesAux s false []

/- Python str.split() with no argument: split on whitespace runs,
   producing no empty tokens. -/
def splitWsAux : Str → Str → List Str
  | [], acc => if acc = [] then [] else [acc.reverse]
  | c :: cs, acc =>
    if isPySpace c then
      if acc = [] then splitWsAux cs [] else acc.reverse :: splitWsAux cs []
    else splitWsAux cs (c :: acc)

def pySplitWs (s : Str) : List Str := splitWsAux s []

/- Join strings on a single-character delimiter. -/
def joinWith (d : Char) : List Str → Str
  | [] => []
  | [x] => x
  | x :: y :: rest => x ++ d :: joinWith d (y :: rest)

/- The table-header pattern of tsdb._parse_schema: a word character,
   one or more further characters none of which is a newline, and a
   final colon; the captured table name is everything before the
   colon. -/
def headerMatch (line : Str) : Option Str :=
  match line with
  | c :: rest =>
    if isWordChar c && decide (2 ≤ rest.length) && (rest.getLast? == some ':')
        && rest.dropLast.all (fun ch => ch ≠ '\n')
    then some ((c :: rest).dropLast)
    else none
  | [] => none

/- The last two steps of the field-line branch of tsdb._parse_schema:
   a missing flags group is Python None, whose .split() raises
   AttributeError; a whitespace-only flags group splits to an empty
   list, whose .pop(0) raises IndexError; otherwise the first token is
   the datatype and the rest are the flags. -/
def fieldBuild (name : Str) (flagsStr : Option Str) (comment : Option Str) :
    Except PyErr Field :=
  match flagsStr with
  | none => .error .attributeError
  | some fstr =>
    match pySplitWs fstr with
    | [] => .error .indexError
    | dt :: fl => .ok (mkField name dt fl comment)

/- The field-line regex of tsdb._parse_schema on a stripped line: the
   name is the leading non-space run; the optional flags group wants
   whitespace then a nonempty hash-free run, and when a hash (or the
   end) follows the whitespace directly the engine backtracks and makes
   the group claim the last whitespace character, which needs at least
   two; the optional comment group takes everything after a hash and
   subsequent whitespace. -/
def fieldFromLine (line : Str) : Except PyErr Field :=
  let name := line.takeWhile (fun c => !isPySpace c)
  let rest := line.dropWhile (fun c => !isPySpace c)
  let ws := rest.takeWhile isPySpace
  let rest2 := rest.dropWhile isPySpace
  match rest2 with
  | [] =>
    if 2 ≤ ws.length then fieldBuild name (some [(ws.getLast?).getD ' ']) none
    else fieldBuild name none none
  | c :: cr =>
    if c = '#' then
      if 2 ≤ ws.length then
        fieldBuild name (some [(ws.getLast?).getD ' '])
          (some (cr.dropWhile isPySpace))
      else fieldBuild name none (some (cr.dropWhile isPySpace))
    else
      let fl := rest2.takeWhile (fun ch => !(ch == '#'))
      match rest2.dropWhile (fun ch => !(ch == '#')) with
      | _ :: cr2 => fieldBuild name (some fl) (some (cr2.dropWhile isPySpace))
      | [] => fieldBuild name (some fl) none

/- Flush the table under construction (its fields were accumulated in
   reverse). -/
def flushCur (cur : Option (Str × List Field)) : List (Str × List Field) :=
  match cur with
  | some (n, fs) => [(n, fs.reverse)]
  | none => []

/- tsdb._parse_schema over the split lines: a header line starts a new
   table after checking it was not seen before; a blank line is
   skipped; any other line is a field line when a table is open and a
   hard error otherwise.  The schema is the ordered table list, as in
   the dict the source builds. -/
def parseSchemaLines : List Str → List (Str × List Field) →
    Option (Str × List Field) → Except PyErr (List (Str × List Field))
  | [], done, cur => .ok (done ++ flushCur cur)
  | l :: rest, done, cur =>
    let line := stripStr l
    match headerMatch line with
    | some tname =>
      let done' := done ++ flushCur cur
      if tname ∈ done'.map Prod.fst
      then .error (.schemaError (str "table redefined"))
      else parseSchemaLines rest done' (some (tname, []))
    | none =>
      if line = [] then parseSchemaLines rest done cur
      else
        match cur with
        | none => .error (.schemaError (str "invalid line in schema file"))
        | some (n, fs) =>
          match fieldFromLine line with
          | .error e => .error e
          | .ok f => parseSchemaLines rest done (some (n, f :: fs))

def parseSchema (s : Str) : Except PyErr (List (Str × List Field)) :=
  parseSchemaLines (pySplitlines s) [] none

/- Does a result carry a TSDBSchemaError? -/
def isSchemaError {α : Type} : Except PyErr α → Bool
  | .error (.schemaError _) => true
  | _ => false

/- tsql._keywords and tsql._operators, in source order. -/
def TSQL_KEYWORDS : List Str :=
  [str "info", str "set", str "retrieve", str "select", str "insert",
   str "from", str "where", str "report", str "*", str "."]

def TSQL_OPERATORS : List Str :=
  [str "==", str "=", str "!=", str "~", str "!~", str "<=", str "<",
   str ">=", str ">", str "&&", str "&", str "and", str "||", str "|",
   str "or", str "!", str "not"]

/- Case-insensitive literal prefix match (the lexer regex carries
   re.IGNORECASE); the token keeps the original characters. -/
def matchLitAux : Str → Str → Str → Option (Str × Str)
  | [], rest, acc => some (acc.reverse, rest)
  | _ :: _, [], _ => none
  | p :: ps, c :: cs, acc =>
    if p.toLower = c.toLower then matchLitAux ps cs (c :: acc) else none

def matchLit (lit s : Str) : Option (Str × Str) := matchLitAux lit s []

/- Ordered alternation over literal alternatives. -/
def matchFirst : List Str → Str → Option (Str × Str)
  | [], _ => none
  | lit :: lits, s =>
    match matchLit lit s with
    | some r => some r
    | none => matchFirst lits s

/- Lexer group 3: a parenthesis. -/
def matchParen : Str → Option (Str × Str)
  | '(' :: r => some ([ '(' ], r)
  | ')' :: r => some ([ ')' ], r)
  | _ => none

/- Lexer groups 4 and 5: a quoted string; the captured token is the
   content between the quotes, with backslash escapes passed through. -/
def quotedAux (q : Char) : Str → Option (Str × Str)
  | [] => none
  | c :: cs =>
    if c = q then some ([], cs)
    else if c = '\\' then
      match cs with
      | [] => none
      | e :: cs' => (quotedAux q cs').map (fun p => ('\\' :: e :: p.1, p.2))
    else (quotedAux q cs).map (fun p => (c :: p.1, p.2))

def matchQuoted (q : Char) : Str → Option (Str × Str)
  | c :: cs => if c = q then quotedAux q cs else none
  | [] => none

/- Date sub-patterns of the lexer regex.  All-digit runs are greedy;
   every optional tail group is harmless to take greedily because
   nothing mandatory follows it. -/
def take2Digits : Str → Option (Str × Str)
  | a :: b :: r => if a.isDigit && b.isDigit then some ([a, b], r) else none
  | _ => none

def take12Digits (s : Str) : Option (Str × Str) :=
  match s with
  | a :: b :: r =>
    if a.isDigit then
      if b.isDigit then some ([a, b], r) else some ([a], b :: r)
    else none
  | [a] => if a.isDigit then some ([a], []) else none
  | [] => none

def take4Digits : Str → Option (Str × Str)
  | a :: b :: c :: d :: r =>
    if a.isDigit && b.isDigit && c.isDigit && d.isDigit
    then some ([a, b, c, d], r) else none
  | _ => none

def MONTH_NAMES : List Str :=
  [str "jan", str "feb", str "mar", str "apr", str "may", str "jun",
   str "jul", str "aug", str "sep", str "oct", str "nov", str "dec"]

/- {m}: one or two digits, else a month abbreviation. -/
def takeMonthPat (s : Str) : Option (Str × Str) :=
  match take12Digits s with
  | some r => some r
  | none => matchFirst MONTH_NAMES s

/- {yy}: four digits if available, else two. -/
def takeYY (s : Str) : Option (Str × Str) :=
  match take4Digits s with
  | some r => some r
  | none => take2Digits s

/- {t}: optional whitespace, then a parenthesized HH:MM(:SS)? time. -/
def matchTimeParen (s : Str) : Option (Str × Str) :=
  let sp := s.takeWhile isPySpace
  let r0 := s.dropWhile isPySpace
  match r0 with
  | '(' :: r1 =>
    match take2Digits r1 with
    | some (hh, r2) =>
      match r2 with
      | ':' :: r3 =>
        match take2Digits r3 with
        | some (mm, r4) =>
          match r4 with
          | ':' :: r5 =>
            match take2Digits r5 with
            | some (ss, r6) =>
              match r6 with
              | ')' :: r7 =>
                some (sp ++ '(' :: hh ++ ':' :: mm ++ ':' :: ss ++ [')'], r7)
              | _ => none
            | none => none
          | ')' :: r5 => some (sp ++ '(' :: hh ++ ':' :: mm ++ [')'], r5)
          | _ => none
        | none => none
      | _ => none
    | none => none
  | _ => none

/- {tt}: mandatory whitespace then a bare HH:MM:SS time. -/
def matchTimeBare (s : Str) : Option (Str × Str) :=
  let sp := s.takeWhile isPySpace
  let r0 := s.dropWhile isPySpace
  if sp = [] then none
  else
    match take2Digits r0 with
    | some (hh, r2) =>
      match r2 with
      | ':' :: r3 =>
        match take2Digits r3 with
        | some (mm, r4) =>
          match r4 with
          | ':' :: r5 =>
            match take2Digits r5 with
            | some (ss, r6) => some (sp ++ hh ++ ':' :: mm ++ ':' :: ss, r6)
            | none => none
          | _ => none
        | none => none
      | _ => none
    | none => none

/- (?:{t}|{tt})? -/
def matchTimeOptG (s : Str) : Str × Str :=
  match matchTimeParen s with
  | some r => r
  | none =>
    match matchTimeBare s with
    | some r => r
    | none => ([], s)

/- Lexer group 6: {yyyy}-{m}(?:-{d})?(?:{t}|{tt})? -/
def matchG6 (s : Str) : Option (Str × Str) :=
  match take4Digits s with
  | none => none
  | some (y, r1) =>
    match r1 with
    | '-' :: r2 =>
      match takeMonthPat r2 with
      | none => none
      | some (m, r3) =>
        let (d, r4) :=
          match r3 with
          | '-' :: r3' =>
            match take12Digits r3' with
            | some (dd, r4') => (('-' :: dd : Str), r4')
            | none => (([] : Str), r3)
          | _ => (([] : Str), r3)
        let (t, r5) := matchTimeOptG r4
        some (y ++ '-' :: m ++ d ++ t, r5)
    | _ => none

/- The {m}-{yy} core of group 7. -/
def matchMYY (s : Str) : Option (Str × Str) :=
  match takeMonthPat s with
  | none => none
  | some (m, r1) =>
    match r1 with
    | '-' :: r2 =>
      match takeYY r2 with
      | none => none
      | some (y, r3) =>
        let (t, r4) := matchTimeOptG r3
        some (m ++ '-' :: y ++ t, r4)
    | _ => none

/- Lexer group 7: (?:{d}-)?{m}-{yy}(?:{t}|{tt})?; when the optional
   day prefix matches but the rest fails the engine backtracks and
   retries without it. -/
def matchG7 (s : Str) : Option (Str × Str) :=
  match take12Digits s with
  | some (d, '-' :: r1) =>
    (match matchMYY r1 with
     | some (my, r2) => some (d ++ '-' :: my, r2)
     | none => matchMYY s)
  | _ => matchMYY s

/- Lexer group 9: [+-]?[0-9]+ -/
def matchInt (s : Str) : Option (Str × Str) :=
  match s with
  | c :: cs =>
    if c = '+' ∨ c = '-' then
      match cs.takeWhile Char.isDigit with
      | [] => none
      | ds => some (c :: ds, cs.dropWhile Char.isDigit)
    else
      match s.takeWhile Char.isDigit with
      | [] => none
      | ds => some (ds, s.dropWhile Char.isDigit)
  | [] => none

/- The {id} pattern: [a-zA-Z][-_a-zA-Z0-9]* -/
def isIdStart (c : Char) : Bool := c.isAlpha

def isIdChar (c : Char) : Bool := c.isAlphanum || c = '-' || c = '_'

def matchIdent (s : Str) : Option (Str × Str) :=
  match s with
  | c :: cs =>
    if isIdStart c then some (c :: cs.takeWhile isIdChar, cs.dropWhile isIdChar)
    else none
  | [] => none

/- (?:{id}:)?{id}: a table qualifier is consumed only when a further
   identifier follows the colon. -/
def matchQualId (s : Str) : Option (Str × Str) :=
  match matchIdent s with
  | none => none
  | some (t1, r1) =>
    match r1 with
    | ':' :: r2 =>
      match matchIdent r2 with
      | some (t2, r3) => some (t1 ++ ':' :: t2, r3)
      | none => some (t1, r1)
    | _ => some (t1, r1)

/- (?:@(?:{id}:)?{id})*, greedy. -/
def atQualLoop : Nat → Str → Str × Str
  | 0, s => ([], s)
  | fuel + 1, s =>
    match s with
    | '@' :: r1 =>
      (match matchQualId r1 with
       | some (t, r2) =>
         let (more, r3) := atQualLoop fuel r2
         ('@' :: t ++ more, r3)
       | none => ([], s))
    | _ => ([], s)

/- Lexer group 10: extended identifier. -/
def matchG10 (s : Str) : Option (Str × Str) :=
  match matchQualId s with
  | none => none
  | some (t, r1) =>
    let (more, r2) := atQualLoop r1.length r1
    some (t ++ more, r2)

/- The full ordered alternation of tsql._tsql_lex_re: the group id and
   captured token of the first alternative matching at this position. -/
def tsqlTryMatch (s : Str) : Option (Nat × Str × Str) :=
  match matchFirst TSQL_KEYWORDS s with
  | some (tok, rest) => some (1, tok, rest)
  | none =>
  match matchFirst TSQL_OPERATORS s with
  | some (tok, rest) => some (2, tok, rest)
  | none =>
  match matchParen s with
  | some (tok, rest) => some (3, tok, rest)
  | none =>
  match matchQuoted '"' s with
  | some (tok, rest) => some (4, tok, rest)
  | none =>
  match matchQuoted '\'' s with
  | some (tok, rest) => some (5, tok, rest)
  | none =>
  match matchG6 s with
  | some (tok, rest) => some (6, tok, rest)
  | none =>
  match matchG7 s with
  | some (tok, rest) => some (7, tok, rest)
  | none =>
  match matchFirst [str ":today", str "now"] s with
  | some (tok, rest) => some (8, tok, rest)
  | none =>
  match matchInt s with
  | some (tok, rest) => some (9, tok, rest)
  | none =>
  match matchG10 s with
  | some (tok, rest) => some (10, tok, rest)
  | none => none

/- tsql._lex over one line: like re.finditer, positions that start no
   match are skipped when they hold whitespace and are a hard syntax
   error otherwise (group 11).  Line numbers are not tracked; they only
   feed error messages. -/
def lexLine : Nat → Str → Except PyErr (List (Nat × Str))
  | _, [] => .ok []
  | 0, _ => .error (.tsqlSyntaxError (str "fuel"))
  | fuel + 1, c :: cs =>
    match tsqlTryMatch (c :: cs) with
    | some (gid, tok, rest) =>
      (lexLine fuel rest).map (fun ts => (gid, tok) :: ts)
    | none =>
      if isPySpace c then lexLine fuel cs
      else .error (.tsqlSyntaxError (str "unexpected input"))

/- tsql._lex: append the terminator '.', split into lines, lex each. -/
def tsqlLex (s : Str) : Except PyErr (List (Nat × Str)) :=
  ((pySplitlines (s ++ ['.'])).mapM
    (fun line => lexLine (line.length + 1) line)).map List.join

/- ===== tsql.py: parser ===== -/

/- A literal in a comparison.  Modelled from the spec: the date-literal
   branch calls util.parse_datetime (whose module is not part of this
   source tree), so a date literal keeps its raw token text under a
   date tag. -/
inductive CondVal where
  | vstr (s : Str)
  | vint (n : Int)
  | vdate (raw : Str)
deriving DecidableEq, Repr

/- The condition tree the parser builds: n-ary 'and'/'or' tuples, a
   'not' wrapper (whose body may be Python None), and a comparison. -/
inductive Cond where
  | conj (cs : List Cond)
  | disj (cs : List Cond)
  | neg (c : Option Cond)
  | cmp (op : Str) (col : Str) (val : CondVal)

mutual

def condDecEq : (a b : Cond) → Decidable (a = b)
  | .conj xs, .conj ys =>
    match condListDecEq xs ys with
    | isTrue h => isTrue (by rw [h])
    | isFalse h => isFalse (by intro he; injection he; exact h (by assumption))
  | .conj _, .disj _ => isFalse (by intro h; exact Cond.noConfusion h)
  | .conj _, .neg _ => isFalse (by intro h; exact Cond.noConfusion h)
  | .conj _, .cmp _ _ _ => isFalse (by intro h; exact Cond.noConfusion h)
  | .disj _, .conj _ => isFalse (by intro h; exact Cond.noConfusion h)
  | .disj xs, .disj ys =>
    match condListDecEq xs ys with
    | isTrue h => isTrue (by rw [h])
    | isFalse h => isFalse (by intro he; injection he; exact h (by assumption))
  | .disj _, .neg _ => isFalse (by intro h; exact Cond.noConfusion h)
  | .disj _, .cmp _ _ _ => isFalse (by intro h; exact Cond.noConfusion h)
  | .neg _, .conj _ => isFalse (by intro h; exact Cond.noConfusion h)
  | .neg _, .disj _ => isFalse (by intro h; exact Cond.noConfusion h)
  | .neg none, .neg none => isTrue rfl
  | .neg none, .neg (some _) => isFalse (by intro h; injection h; simp_all)
  | .neg (some _), .neg none => isFalse (by intro h; injection h; simp_all)
  | .neg (some x), .neg (some y) =>
    match condDecEq x y with
    | isTrue h => isTrue (by rw [h])
    | isFalse h => isFalse (by intro he; injection he; simp_all)
  | .neg _, .cmp _ _ _ => isFalse (by intro h; exact Cond.noConfusion h)
  | .cmp _ _ _, .conj _ => isFalse (by intro h; exact Cond.noConfusion h)
  | .cmp _ _ _, .disj _ => isFalse (by intro h; exact Cond.noConfusion h)
  | .cmp _ _ _, .neg _ => isFalse (by intro h; exact Cond.noConfusion h)
  | .cmp o1 c1 v1, .cmp o2 c2 v2 =>
    if h : o1 = o2 ∧ c1 = c2 ∧ v1 = v2 then
      isTrue (by rw [h.1, h.2.1, h.2.2])
    else isFalse (by intro he; injection he; simp_all)

def condListDecEq : (xs ys : List Cond) → Decidable (xs = ys)
  | [], [] => isTrue rfl
  | [], _ :: _ => isFalse (by intro h; exact List.noConfusion h)
  | _ :: _, [] => isFalse (by intro h; exact List.noConfusion h)
  | x :: xs, y :: ys =>
    match condDecEq x y, condListDecEq xs ys with
    | isTrue h1, isTrue h2 => isTrue (by rw [h1, h2])
    | isFalse h1, _ => isFalse (by intro he; injection he; exact h1 (by assumption))
    | _, isFalse h2 => isFalse (by intro he; injection he; exact h2 (by assumption))

end

instance : DecidableEq Cond := condDecEq

inductive Projection where
  | star
  | cols (cs : List Str)
deriving DecidableEq, Repr

structure SelectQuery where
  projection : Projection
  tables : List Str
  whereCond : Option Cond
deriving DecidableEq

/- Modelled from the spec: the parser walks the token stream through a
   lookahead iterator; peeking or advancing past the end raises
   StopIteration. -/
def peekT : List (Nat × Str) → Except PyErr (Nat × Str)
  | [] => .error .stopIteration
  | t :: _ => .ok t

def nextT : List (Nat × Str) → Except PyErr ((Nat × Str) × List (Nat × Str))
  | [] => .error .stopIteration
  | t :: ts => .ok (t, ts)

/- str.rpartition at the last occurrence of the separator; when the
   separator is absent the first two components are empty. -/
def pyRPartition (s : Str) (c : Char) : Str × Str × Str :=
  let r := s.reverse
  let pre := r.takeWhile (fun x => x ≠ c)
  match r.dropWhile (fun x => x ≠ c) with
  | [] => ([], [], s)
  | _ :: rr => (rr.reverse, [c], pre.reverse)

/- tsql._prepare_columns: split each column on '@', carry the last seen
   table qualifier forward within one column. -/
def prepCol (table : Str) : List Str → List Str
  | [] => []
  | part :: rest =>
    let p := pyRPartition part ':'
    let table' := if p.1 ≠ [] then p.1 ++ [':'] else table
    (table' ++ p.2.2) :: prepCol table' rest

def prepareColumns (cols : List Str) : List Str :=
  (cols.map (fun col => prepCol [] (pySplit '@' col))).join

/- tsql._parse_condition_statement: column, operator, literal; '='
   normalizes to '=='; regex operators need a string literal, ordering
   operators an integer or date. -/
def parse_condition_statement (ts : List (Nat × Str)) :
    Except PyErr (Cond × List (Nat × Str)) :=
  match nextT ts with
  | .error e => .error e
  | .ok ((g1, col), ts1) =>
    if g1 = 10 then
      match nextT ts1 with
      | .error e => .error e
      | .ok ((g2, op0), ts2) =>
        if g2 = 2 then
          let op := if op0 = str "=" then str "==" else op0
          match nextT ts2 with
          | .error e => .error e
          | .ok ((g3, val), ts3) =>
            if (op = str "~" ∨ op = str "!~") ∧ ¬(g3 = 4 ∨ g3 = 5) then
              .error (.tsqlSyntaxError (str "regex operator needs a string"))
            else if (op = str "<" ∨ op = str "<=" ∨ op = str ">"
                  ∨ op = str ">=")
                ∧ ¬(g3 = 6 ∨ g3 = 7 ∨ g3 = 8 ∨ g3 = 9) then
              .error (.tsqlSyntaxError
                (str "ordering operator needs an integer or date"))
            else if g3 = 6 ∨ g3 = 7 ∨ g3 = 8 then
              .ok (.cmp op col (.vdate val), ts3)
            else if g3 = 9 then
              match pyInt val with
              | .error e => .error e
              | .ok n => .ok (.cmp op col (.vint n), ts3)
            else .ok (.cmp op col (.vstr val), ts3)
        else .error (.tsqlSyntaxError (str "expected an operator"))
    else .error (.tsqlSyntaxError (str "expected a column name"))

/- tsql._parse_condition_*: the recursive-descent condition parser.
   The fuel only bounds recursion depth; every accepted parse is
   reachable with enough fuel. -/
mutual

def parse_condition_disjunction : Nat → List (Nat × Str) →
    Except PyErr (Option Cond × List (Nat × Str))
  | 0, _ => .error (.tsqlSyntaxError (str "fuel"))
  | fuel + 1, ts =>
    match disjLoop fuel [] ts with
    | .error e => .error e
    | .ok (conds, ts') =>
      match conds with
      | [] => .ok (none, ts')
      | [c] => .ok (some c, ts')
      | _ => .ok (some (.disj conds), ts')

def disjLoop : Nat → List Cond → List (Nat × Str) →
    Except PyErr (List Cond × List (Nat × Str))
  | 0, _, _ => .error (.tsqlSyntaxError (str "fuel"))
  | fuel + 1, acc, ts =>
    match parse_condition_conjunction fuel ts with
    | .error e => .error e
    | .ok (copt, ts1) =>
      let acc' := match copt with
                  | some c => acc ++ [c]
                  | none => acc
      match peekT ts1 with
      | .error e => .error e
      | .ok (_, t1) =>
        if t1 = str "|" ∨ t1 = str "||" ∨ t1 = str "or" then
          match nextT ts1 with
          | .error e => .error e
          | .ok (_, ts2) =>
            match peekT ts2 with
            | .error e => .error e
            | .ok _ => disjLoop fuel acc' ts2
        else .ok (acc', ts1)

def parse_condition_conjunction : Nat → List (Nat × Str) →
    Except PyErr (Option Cond × List (Nat × Str))
  | 0, _ => .error (.tsqlSyntaxError (str "fuel"))
  | fuel + 1, ts =>
    match peekT ts with
    | .error e => .error e
    | .ok (g, t) =>
      match conjLoop fuel [] g t ts with
      | .error e => .error e
      | .ok (conds, ts') =>
        match conds with
        | [] => .ok (none, ts')
        | [c] => .ok (some c, ts')
        | _ => .ok (some (.conj conds), ts')

def conjLoop : Nat → List Cond → Nat → Str → List (Nat × Str) →
    Except PyErr (List Cond × List (Nat × Str))
  | 0, _, _, _, _ => .error (.tsqlSyntaxError (str "fuel"))
  | fuel + 1, acc, g, t, ts =>
    if g = 2 ∧ (toLowerStr t = str "!" ∨ toLowerStr t = str "not") then
      match parse_condition_negation fuel ts with
      | .error e => .error e
      | .ok (c, ts1) => conjAfter fuel (acc ++ [c]) ts1
    else if g = 3 ∧ t = str "(" then
      match parse_condition_group fuel ts with
      | .error e => .error e
      | .ok (c, ts1) => conjAfter fuel (acc ++ [c]) ts1
    else if g = 3 ∧ t = str ")" then .ok (acc, ts)
    else if g = 10 then
      match parse_condition_statement ts with
      | .error e => .error e
      | .ok (c, ts1) => conjAfter fuel (acc ++ [c]) ts1
    else .error (.tsqlSyntaxError (str "expected a negation, group or column"))

def conjAfter : Nat → List Cond → List (Nat × Str) →
    Except PyErr (List Cond × List (Nat × Str))
  | 0, _, _ => .error (.tsqlSyntaxError (str "fuel"))
  | fuel + 1, acc, ts =>
    match peekT ts with
    | .error e => .error e
    | .ok (_, t) =>
      if toLowerStr t = str "&" ∨ toLowerStr t = str "&&"
          ∨ toLowerStr t = str "and" then
        match nextT ts with
        | .error e => .error e
        | .ok (_, ts1) =>
          match peekT ts1 with
          | .error e => .error e
          | .ok (g2, t2) => conjLoop fuel acc g2 t2 ts1
      else .ok (acc, ts)

def parse_condition_negation : Nat → List (Nat × Str) →
    Except PyErr (Cond × List (Nat × Str))
  | 0, _ => .error (.tsqlSyntaxError (str "fuel"))
  | fuel + 1, ts =>
    match nextT ts with
    | .error e => .error e
    | .ok ((g, t), ts1) =>
      if g = 2 ∧ (t = str "!" ∨ t = str "not") then
        match parse_condition_disjunction fuel ts1 with
        | .error e => .error e
        | .ok (copt, ts2) => .ok (.neg copt, ts2)
      else .error (.tsqlSyntaxError (str "expected a negation"))

def parse_condition_group : Nat → List (Nat × Str) →
    Except PyErr (Cond × List (Nat × Str))
  | 0, _ => .error (.tsqlSyntaxError (str "fuel"))
  | fuel + 1, ts =>
    match nextT ts with
    | .error e => .error e
    | .ok ((g, t), ts1) =>
      if g = 3 ∧ t = str "(" then
        match parse_condition_disjunction fuel ts1 with
        | .error e => .error e
        | .ok (copt, ts2) =>
          match nextT ts2 with
          | .error e => .error e
          | .ok ((g2, t2), ts3) =>
            if g2 = 3 ∧ t2 = str ")" then
              match copt with
              | none => .error .typeError
              | some c => .ok (c, ts3)
            else .error (.tsqlSyntaxError (str "expected a closing paren"))
      else .error (.tsqlSyntaxError (str "expected an opening paren"))

end

/- tsql._parse_select_projection and its column loop. -/
def gidLoop : Nat → List Str → List (Nat × Str) →
    Except PyErr (List Str × List (Nat × Str))
  | 0, _, _ => .error (.tsqlSyntaxError (str "fuel"))
  | fuel + 1, acc, ts =>
    match peekT ts with
    | .error e => .error e
    | .ok (g, t) =>
      if g = 10 then
        match nextT ts with
        | .error e => .error e
        | .ok (_, ts1) => gidLoop fuel (acc ++ [t]) ts1
      else .ok (acc, ts)

def parse_select_projection (fuel : Nat) (ts : List (Nat × Str)) :
    Except PyErr (Projection × List (Nat × Str)) :=
  match nextT ts with
  | .error e => .error e
  | .ok ((g, t), ts1) =>
    if t = str "*" then .ok (.star, ts1)
    else if g = 10 then
      match gidLoop fuel [t] ts1 with
      | .error e => .error e
      | .ok (cols, ts2) => .ok (.cols (prepareColumns cols), ts2)
    else .error (.tsqlSyntaxError (str "expected star or column identifiers"))

/- tsql._parse_select_from. -/
def parse_select_from (fuel : Nat) (ts : List (Nat × Str)) :
    Except PyErr (List Str × List (Nat × Str)) :=
  match peekT ts with
  | .error e => .error e
  | .ok (_, t) =>
    if t = str "from" then
      match nextT ts with
      | .error e => .error e
      | .ok (_, ts1) => gidLoop fuel [] ts1
    else .ok ([], ts)

/- tsql._parse_select_where. -/
def parse_select_where (fuel : Nat) (ts : List (Nat × Str)) :
    Except PyErr (Option Cond × List (Nat × Str)) :=
  match peekT ts with
  | .error e => .error e
  | .ok (_, t) =>
    if t = str "where" then
      match nextT ts with
      | .error e => .error e
      | .ok (_, ts1) => parse_condition_disjunction fuel ts1
    else .ok (none, ts)

/- tsql._parse_select: projection, from, where; a bare star with no
   tables and no condition is rejected. -/
def parse_select (fuel : Nat) (ts : List (Nat × Str)) :
    Except PyErr (SelectQuery × List (Nat × Str)) :=
  match peekT ts with
  | .error e => .error e
  | .ok _ =>
    match parse_select_projection fuel ts with
    | .error e => .error e
    | .ok (proj, ts1) =>
      match parse_select_from fuel ts1 with
      | .error e => .error e
      | .ok (tables, ts2) =>
        match parse_select_where fuel ts2 with
        | .error e => .error e
        | .ok (copt, ts3) =>
          if proj = .star ∧ tables = [] ∧ copt = none then
            .error (.tsqlSyntaxError
              (str "select star requires a from or where statement"))
          else .ok ({ projection := proj, tables := tables,
                      whereCond := copt }, ts3)

/- Lex then parse, as tsql.select does. -/
def lexParseSelect (s : Str) :
    Except PyErr (SelectQuery × List (Nat × Str)) :=
  match tsqlLex s with
  | .error e => .error e
  | .ok ts => parse_select (s.length + 2) ts

/- Every and/or node of a condition tree has at least two children. -/
mutual

def condOk : Cond → Bool
  | .conj cs => decide (2 ≤ cs.length) && condListOk cs
  | .disj cs => decide (2 ≤ cs.length) && condListOk cs
  | .neg none => true
  | .neg (some c) => condOk c
  | .cmp _ _ _ => true

def condListOk : List Cond → Bool
  | [] => true
  | c :: cs => condOk c && condListOk cs

end

/- Every and/or node of a condition tree has exactly two children. -/
mutual

def condExact2 : Cond → Bool
  | .conj cs => decide (cs.length = 2) && condListExact2 cs
  | .disj cs => decide (cs.length = 2) && condListExact2 cs
  | .neg none => true
  | .neg (some c) => condExact2 c
  | .cmp _ _ _ => true

def condListExact2 : List Cond → Bool
  | [] => true
  | c :: cs => condExact2 c && condListExact2 cs

end

/- ===== tsql.py: transitive join path search ===== -/

/- Modelled from the spec: itsdb's relations object, reduced to what
   the breadth-first search consults — each table's key-field names;
   find returns the tables declaring a given key. -/
structure RelInfo where
  tables : List (Str × List Str)
deriving DecidableEq, Repr

def relKeys (R : RelInfo) (t : Str) : List Str :=
  match R.tables.lookup t with
  | some ks => ks
  | none => []

def relFind (R : RelInfo) (k : Str) : List Str :=
  (R.tables.filter (fun p => p.2.contains k)).map Prod.fst

/- Expansion of one path in tsql._id_path: each not-yet-visited table
   declaring the path's last key is visited, and, when it has more than
   one key, contributes one extended path per key not already on the
   path. -/
def expandStep (R : RelInfo) (path : List (Str × Str)) :
    List Str → List Str → List (List (Str × Str)) →
    List (List (Str × Str)) × List Str
  | [], visited, acc => (acc, visited)
  | t :: rest, visited, acc =>
    if visited.contains t then expandStep R path rest visited acc
    else
      let visited' := t :: visited
      let keys := relKeys R t
      if 1 < keys.length then
        let exts := (keys.filter (fun k => ¬ path.contains (t, k))).map
          (fun k => path ++ [(t, k)])
        expandStep R path rest visited' (acc ++ exts)
      else expandStep R path rest visited' acc

/- One pass over the path queue: return the first path whose last key
   is a target key; otherwise collect the expansions. -/
inductive ScanRes where
  | found (p : List (Str × Str))
  | cont (newpaths : List (List (Str × Str))) (visited : List Str)
deriving DecidableEq, Repr

def idPathScan (R : RelInfo) (tgtkeys : List Str) :
    List (List (Str × Str)) → List Str → List (List (Str × Str)) → ScanRes
  | [], visited, acc => .cont acc visited
  | path :: rest, visited, acc =>
    match path.getLast? with
    | none => idPathScan R tgtkeys rest visited acc
    | some last =>
      if tgtkeys.contains last.2 then .found path
      else
        let (acc', visited') := expandStep R path (relFind R last.2) visited acc
        idPathScan R tgtkeys rest visited' acc'

def idPathLoop (R : RelInfo) (tgtkeys : List Str) :
    Nat → List (List (Str × Str)) → List Str → Option (List (Str × Str))
  | 0, _, _ => none
  | fuel + 1, paths, visited =>
    match idPathScan R tgtkeys paths visited [] with
    | .found p => some p
    | .cont newpaths visited' =>
      if newpaths.isEmpty then none
      else idPathLoop R tgtkeys fuel newpaths visited'

/- tsql._id_path: breadth-first search from every key of the source;
   the source's (possibly joined, '+'-separated) name seeds the visited
   set; falling out of the loop returns Python None. -/
def id_path (fuel : Nat) (src tgt : Str × List Str) (R : RelInfo) :
    Option (List (Str × Str)) :=
  idPathLoop R tgt.2 fuel (src.2.map (fun k => [(src.1, k)]))
    (pySplit '+' src.1)

/- tsql._transitive_join, abstracted to the joins it attempts (itsdb is
   not part of this source tree): with no first table the second is
   taken as is; otherwise the discovered path's intermediate tables are
   joined in order and then the direct join runs.  Python's
   `path[1:]` subscripts the None returned for a missing path, raising
   TypeError before any join. -/
def transitive_join (fuel : Nat) (tab1 : Option (Str × List Str))
    (tab2 : Str × List Str) (R : RelInfo) :
    Except PyErr (List Str × Bool) :=
  match tab1 with
  | none => .ok ([], false)
  | some t1 =>
    match id_path fuel t1 tab2 R with
    | none => .error .typeError
    | some p => .ok ((p.drop 1).map Prod.fst, true)

@[simp]
theorem pyReplaceF_nil (pat rep : Str) (f : Nat) : pyReplaceF pat rep f [] = [] := by
  cases f <;> rfl

theorem pyReplaceF_irrel (pat rep : Str) :
    ∀ f1 f2 s, s.length ≤ f1 → s.length ≤ f2 →
      pyReplaceF pat rep f1 s = pyReplaceF pat rep f2 s := by
  intro f1
  induction f1 with
  | zero =>
    intro f2 s hs1 _
    have : s = [] := List.eq_nil_of_length_eq_zero (Nat.le_zero.mp hs1)
    subst this
    cases f2 <;> rfl
  | succ f ih =>
    intro f2 s hs1 hs2
    cases s with
    | nil => cases f2 <;> rfl
    | cons c cs =>
      cases f2 with
      | zero => simp at hs2
      | succ g =>
        rw [pyReplaceF, pyReplaceF]
        by_cases h : pat ≠ [] ∧ pat.isPrefixOf (c :: cs)
        · rw [if_pos h, if_pos h]
          have hp : 0 < pat.length := List.length_pos.mpr h.1
          have hd : ((c :: cs).drop pat.length).length ≤ cs.length := by
            simp only [List.length_drop, List.length_cons]
            omega
          simp only [List.length_cons] at hs1 hs2
          rw [ih g _ (by omega) (by omega)]
        · rw [if_neg h, if_neg h]
          simp only [List.length_cons] at hs1 hs2
          rw [ih g cs (by omega) (by omega)]

theorem pyReplace_cons_pos (pat rep : Str) (c : Char) (cs : Str)
    (h1 : pat ≠ []) (h2 : pat.isPrefixOf (c :: cs)) :
    pyReplace pat rep (c :: cs) = rep ++ pyReplace pat rep ((c :: cs).drop pat.length) := by
  unfold pyReplace
  simp only [List.length_cons, pyReplaceF, if_pos (And.intro h1 h2)]
  have hp : 0 < pat.length := List.length_pos.mpr h1
  rw [pyReplaceF_irrel pat rep cs.length ((c :: cs).drop pat.length).length]
  · simp only [List.length_drop, List.length_cons]
    omega
  · exact Nat.le_refl _

theorem pyReplace_cons_neg (pat rep : Str) (c : Char) (cs : Str)
    (h : ¬ pat.isPrefixOf (c :: cs)) :
    pyReplace pat rep (c :: cs) = c :: pyReplace pat rep cs := by
  unfold pyReplace
  simp only [List.length_cons, pyReplaceF]
  rw [if_neg (by intro hand; exact h hand.2)]

theorem cmap_append (f : Char → Str) (a b : Str) :
    cmap f (a ++ b) = cmap f a ++ cmap f b := by
  induction a with
  | nil => simp [cmap]
  | cons c cs ih => simp [cmap, ih]

/- A single-character pattern replace is a per-character expansion. -/
theorem pyReplace_single (a : Char) (rep : Str) (s : Str) :
    pyReplace [a] rep s = cmap (fun c => if c = a then rep else [c]) s := by
  induction s with
  | nil => simp [pyReplace, cmap]
  | cons c cs ih =>
    by_cases hca : c = a
    · subst hca
      rw [pyReplace_cons_pos [c] rep c cs (by simp) (by simp [List.isPrefixOf])]
      simp [cmap, ih]
    · rw [pyReplace_cons_neg [a] rep c cs]
      · simp [cmap, ih, hca]
      · simp [List.isPrefixOf]
        intro h
        exact absurd h.symm hca

theorem cmap_congr (f g : Char → Str) (h : ∀ c, f c = g c) (s : Str) :
    cmap f s = cmap g s := by
  induction s with
  | nil => rfl
  | cons c cs ih => simp [cmap, h c, ih]

theorem cmap_cmap (f g : Char → Str) (s : Str) :
    cmap f (cmap g s) = cmap (fun c => cmap f (g c)) s := by
  induction s with
  | nil => rfl
  | cons c cs ih => simp [cmap, cmap_append, ih]

/- escape is exactly the per-character expansion escChar. -/
theorem escape_eq_cmap (s : Str) : escape s = cmap escChar s := by
  unfold escape
  rw [pyReplace_single, pyReplace_single, pyReplace_single, cmap_cmap, cmap_cmap]
  refine cmap_congr _ _ (fun c => ?_) s
  by_cases h1 : c = '\\'
  · subst h1; simp [cmap, FIELD_DELIMITER, escChar]
  · by_cases h2 : c = '\n'
    · subst h2; simp [cmap, FIELD_DELIMITER, escChar]
    · by_cases h3 : c = FIELD_DELIMITER
      · subst h3; simp [cmap, FIELD_DELIMITER, escChar]
      · simp [cmap, escChar, h1, h2, h3]

theorem isPrefixOf_two (a b x y : Char) (r : Str) :
    ([a, b].isPrefixOf (x :: y :: r)) = (a == x && b == y) := by
  simp [List.isPrefixOf]

theorem isPrefixOf_two_single (a b x : Char) :
    ([a, b].isPrefixOf [x]) = false := by
  simp [List.isPrefixOf]

theorem artifactFree_tail (c : Char) (cs : Str) (h : artifactFree (c :: cs) = true) :
    artifactFree cs = true := by
  cases cs with
  | nil => rfl
  | cons b r =>
    rw [artifactFree] at h
    exact (Bool.and_eq_true _ _ |>.mp h).2

theorem artifactFree_head (cs : Str) (h : artifactFree ('\\' :: cs) = true) :
    ∀ d ∈ cs.head?, d ≠ 'n' ∧ d ≠ 's' := by
  cases cs with
  | nil => intro d hd; simp at hd
  | cons b r =>
    intro d hd
    simp at hd
    subst hd
    rw [artifactFree] at h
    have h1 := (Bool.and_eq_true _ _ |>.mp h).1
    constructor
    · intro hn; subst hn; simp at h1
    · intro hs; subst hs; simp at h1

/- Undoing the doubled backslashes on escaped text. -/
theorem undo_backslash (s : Str) :
    pyReplace ['\\', '\\'] ['\\'] (cmap escChar s) = cmap decChar1 s := by
  induction s with
  | nil => simp [cmap, pyReplace]
  | cons c cs ih =>
    by_cases h1 : c = '\\'
    · subst h1
      have hesc : cmap escChar ('\\' :: cs) = '\\' :: '\\' :: cmap escChar cs := by
        simp [cmap, escChar]
      rw [hesc, pyReplace_cons_pos _ _ _ _ (by simp) (by simp [List.isPrefixOf])]
      simp [decChar1, cmap, ih]
    · by_cases h2 : c = '\n'
      · subst h2
        have hesc : cmap escChar ('\n' :: cs) = '\\' :: 'n' :: cmap escChar cs := by
          simp [cmap, escChar]
        rw [hesc, pyReplace_cons_neg _ _ _ _ (by simp [isPrefixOf_two]),
          pyReplace_cons_neg _ _ _ _ ?hpre]
        · simp [decChar1, cmap, ih]
        case hpre =>
          cases hrest : cmap escChar cs with
          | nil => simp [isPrefixOf_two_single]
          | cons x r => simp [isPrefixOf_two]
      · by_cases h3 : c = FIELD_DELIMITER
        · subst h3
          have hesc : cmap escChar (FIELD_DELIMITER :: cs)
              = '\\' :: 's' :: cmap escChar cs := by
            simp [cmap, escChar, FIELD_DELIMITER]
          rw [hesc, pyReplace_cons_neg _ _ _ _ (by simp [isPrefixOf_two]),
            pyReplace_cons_neg _ _ _ _ ?hpre2]
          · simp [decChar1, cmap, ih, FIELD_DELIMITER]
          case hpre2 =>
            cases hrest : cmap escChar cs with
            | nil => simp [isPrefixOf_two_single]
            | cons x r => simp [isPrefixOf_two]
        · have hesc : cmap escChar (c :: cs) = c :: cmap escChar cs := by
            simp [cmap, escChar, h1, h2, h3]
          rw [hesc, pyReplace_cons_neg _ _ _ _ ?hpre3]
          · simp [decChar1, cmap, ih, h1, h2, h3]
          case hpre3 =>
            cases hrest : cmap escChar cs with
            | nil => simp [List.isPrefixOf]
            | cons x r =>
              simp [isPrefixOf_two]
              intro he
              exact absurd he.symm h1

theorem pre_first (a b x : Char) (r : Str) (hx : ¬ x = a) :
    ([a, b].isPrefixOf (x :: r)) = false := by
  cases r with
  | nil => simp [List.isPrefixOf]
  | cons y r2 =>
    rw [isPrefixOf_two]
    simp
    intro he
    exact absurd he.symm hx

theorem pre_second (a b x y : Char) (r : Str) (hy : ¬ y = b) :
    ([a, b].isPrefixOf (x :: y :: r)) = false := by
  rw [isPrefixOf_two]
  simp
  intro _ he
  exact absurd he.symm hy

/- Undoing the newline escapes on artifact-free text. -/
theorem undo_newline (s : Str) (h : artifactFree s = true) :
    pyReplace ['\\', 'n'] ['\n'] (cmap decChar1 s) = cmap decChar2 s := by
  induction s with
  | nil => simp [cmap, pyReplace]
  | cons c cs ih =>
    have htail := artifactFree_tail c cs h
    by_cases h1 : c = '\\'
    · subst h1
      have hd1 : cmap decChar1 ('\\' :: cs) = '\\' :: cmap decChar1 cs := by
        simp [cmap, decChar1]
      rw [hd1, pyReplace_cons_neg _ _ _ _ ?hp]
      · simp [decChar2, cmap, ih htail]
      case hp =>
        cases cs with
        | nil => simp [cmap, isPrefixOf_two_single]
        | cons d r =>
          have hdn : d ≠ 'n' := (artifactFree_head _ h d (by simp)).1
          by_cases hc1 : d = '\\'
          · subst hc1; simp [cmap, decChar1, pre_second]
          · by_cases hc2 : d = '\n'
            · subst hc2; simp [cmap, decChar1, pre_second]
            · by_cases hc3 : d = FIELD_DELIMITER
              · subst hc3; simp [cmap, decChar1, FIELD_DELIMITER, pre_second]
              · simp only [cmap, decChar1, if_neg hc1, if_neg hc2, if_neg hc3,
                  List.cons_append]
                rw [pre_second _ _ _ _ _ hdn]
                simp
    · by_cases h2 : c = '\n'
      · subst h2
        have hd1 : cmap decChar1 ('\n' :: cs) = '\\' :: 'n' :: cmap decChar1 cs := by
          simp [cmap, decChar1]
        rw [hd1, pyReplace_cons_pos _ _ _ _ (by simp) (by simp [List.isPrefixOf])]
        simp [decChar2, cmap, ih htail]
      · by_cases h3 : c = FIELD_DELIMITER
        · subst h3
          have hd1 : cmap decChar1 (FIELD_DELIMITER :: cs)
              = '\\' :: 's' :: cmap decChar1 cs := by
            simp [cmap, decChar1, FIELD_DELIMITER]
          rw [hd1, pyReplace_cons_neg _ _ _ _ (by rw [pre_second] <;> decide),
            pyReplace_cons_neg _ _ _ _ (by rw [pre_first] <;> decide)]
          simp [decChar2, cmap, ih htail, FIELD_DELIMITER]
        · have hd1 : cmap decChar1 (c :: cs) = c :: cmap decChar1 cs := by
            simp [cmap, decChar1, h1, h2, h3]
          rw [hd1, pyReplace_cons_neg _ _ _ _ (by rw [pre_first _ _ _ _ h1]; decide)]
          simp [decChar2, cmap, ih htail, h1, h2, h3]

/- Undoing the field-delimiter escapes on artifact-free text recovers the
   original text. -/
theorem undo_fieldsep (s : Str) (h : artifactFree s = true) :
    pyReplace ['\\', 's'] [FIELD_DELIMITER] (cmap decChar2 s) = s := by
  induction s with
  | nil => simp [cmap, pyReplace]
  | cons c cs ih =>
    have htail := artifactFree_tail c cs h
    by_cases h1 : c = '\\'
    · subst h1
      have hd1 : cmap decChar2 ('\\' :: cs) = '\\' :: cmap decChar2 cs := by
        simp [cmap, decChar2]
      rw [hd1, pyReplace_cons_neg _ _ _ _ ?hp]
      · simp [ih htail]
      case hp =>
        cases cs with
        | nil => simp [cmap, isPrefixOf_two_single]
        | cons d r =>
          have hds : d ≠ 's' := (artifactFree_head _ h d (by simp)).2
          by_cases hc1 : d = '\\'
          · subst hc1; simp [cmap, decChar2, pre_second]
          · by_cases hc2 : d = '\n'
            · subst hc2; simp [cmap, decChar2, pre_second]
            · by_cases hc3 : d = FIELD_DELIMITER
              · subst hc3; simp [cmap, decChar2, FIELD_DELIMITER, pre_second]
              · simp only [cmap, decChar2, if_neg hc1, if_neg hc2, if_neg hc3,
                  List.cons_append]
                rw [pre_second _ _ _ _ _ hds]
                simp
    · by_cases h2 : c = '\n'
      · subst h2
        have hd1 : cmap decChar2 ('\n' :: cs) = '\n' :: cmap decChar2 cs := by
          simp [cmap, decChar2]
        rw [hd1, pyReplace_cons_neg _ _ _ _ (by rw [pre_first] <;> decide)]
        simp [ih htail]
      · by_cases h3 : c = FIELD_DELIMITER
        · subst h3
          have hd1 : cmap decChar2 (FIELD_DELIMITER :: cs)
              = '\\' :: 's' :: cmap decChar2 cs := by
            simp [cmap, decChar2, FIELD_DELIMITER]
          rw [hd1, pyReplace_cons_pos _ _ _ _ (by simp) (by simp [List.isPrefixOf])]
          simp [ih htail]
        · have hd1 : cmap decChar2 (c :: cs) = c :: cmap decChar2 cs := by
            simp [cmap, decChar2, h1, h2, h3]
          rw [hd1, pyReplace_cons_neg _ _ _ _ (by rw [pre_first _ _ _ _ h1]; decide)]
          simp [ih htail]

/- The round trip of escaping then unescaping recovers any artifact-free
   text. -/
theorem unescape_escape_aux (s : Str) (h : artifactFree s = true) :
    unescape (escape s) = s := by
  rw [escape_eq_cmap]
  unfold unescape
  rw [undo_backslash, undo_newline s h, undo_fieldsep s h]

/-- Claim C2, counterexample.  The text backslash-s-a does not end in any
escape-related character (its last character is a plain letter a), yet
unescape (escape t) rewrites it to the at-sign followed by a: the doubled
backslash is collapsed first and the resulting backslash-s is then read as
the delimiter escape.  So the round trip fails on a text whose only
escape-like material is in the middle, not trailing. -/
theorem claim_C2_counterexample :
    unescape (escape ['\\', 's', 'a']) = ['@', 'a']
    ∧ ['\\', 's', 'a'] ≠ ['@', 'a']
    ∧ (['\\', 's', 'a'] : Str).getLast? = some 'a' := by
  decide

/-- Claim C2, amended.  unescape (escape t) = t holds for every text t in
which no backslash is immediately followed by the letter n or the letter s
(anywhere in the text, not only at its end); such backslash-n and
backslash-s runs collide with the sequences introduced by escape and are
rewritten by unescape. -/
theorem claim_C2_unescape_escape (t : Str) (h : artifactFree t = true) :
    unescape (escape t) = t :=
  unescape_escape_aux t h

/-- Claim C2, witness: a concrete artifact-free text containing the
delimiter, a backslash and a newline round-trips. -/
theorem claim_C2_witness :
    artifactFree (str "a@b\\c\nd") = true
    ∧ unescape (escape (str "a@b\\c\nd")) = str "a@b\\c\nd" :=
  ⟨by decide, claim_C2_unescape_escape (str "a@b\\c\nd") (by decide)⟩

/- Decimal representation lemmas. -/

theorem natReprAux_irrel : ∀ f1 f2 n, n < f1 → n < f2 → natReprAux f1 n = natReprAux f2 n := by
  intro f1
  induction f1 with
  | zero => intro f2 n h1 _; omega
  | succ f ih =>
    intro f2 n h1 h2
    cases f2 with
    | zero => omega
    | succ g =>
      rw [natReprAux, natReprAux]
      by_cases hn : n < 10
      · rw [if_pos hn, if_pos hn]
      · rw [if_neg hn, if_neg hn]
        have hd : n / 10 < n := Nat.div_lt_self (by omega) (by omega)
        rw [ih g (n / 10) (by omega) (by omega)]

theorem natRepr_lt10 (n : Nat) (h : n < 10) : natRepr n = [Nat.digitChar n] := by
  unfold natRepr
  rw [natReprAux, if_pos h]

theorem natRepr_ge10 (n : Nat) (h : 10 ≤ n) :
    natRepr n = natRepr (n / 10) ++ [Nat.digitChar (n % 10)] := by
  unfold natRepr
  rw [natReprAux, if_neg (by omega)]
  have hd : n / 10 < n := Nat.div_lt_self (by omega) (by omega)
  rw [natReprAux_irrel n (n / 10 + 1) (n / 10) (by omega) (by omega)]

theorem digitVal_digitChar (a : Nat) (h : a < 10) :
    digitVal (Nat.digitChar a) = a := by
  interval_cases a <;> decide

theorem digitChar_isDigit (a : Nat) (h : a < 10) :
    (Nat.digitChar a).isDigit = true := by
  interval_cases a <;> decide

theorem natRepr_all_digits (n : Nat) : ∀ c ∈ natRepr n, c.isDigit = true := by
  induction n using Nat.strong_induction_on with
  | _ n ih =>
    by_cases h : n < 10
    · rw [natRepr_lt10 n h]
      intro c hc
      simp at hc
      subst hc
      exact digitChar_isDigit n h
    · rw [natRepr_ge10 n (by omega)]
      intro c hc
      rw [List.mem_append] at hc
      rcases hc with hc | hc
      · exact ih (n / 10) (Nat.div_lt_self (by omega) (by omega)) c hc
      · simp at hc
        subst hc
        exact digitChar_isDigit (n % 10) (Nat.mod_lt _ (by omega))

theorem natRepr_ne_nil (n : Nat) : natRepr n ≠ [] := by
  by_cases h : n < 10
  · rw [natRepr_lt10 n h]; simp
  · rw [natRepr_ge10 n (by omega)]; simp

theorem digitsToNat_append_one (a : Str) (c : Char) :
    digitsToNat (a ++ [c]) = 10 * digitsToNat a + digitVal c := by
  unfold digitsToNat
  rw [List.foldl_append]
  simp [Nat.mul_comm]

theorem digitsToNat_natRepr (n : Nat) : digitsToNat (natRepr n) = n := by
  induction n using Nat.strong_induction_on with
  | _ n ih =>
    by_cases h : n < 10
    · rw [natRepr_lt10 n h]
      unfold digitsToNat
      simp [digitVal_digitChar n h]
    · rw [natRepr_ge10 n (by omega), digitsToNat_append_one,
        ih (n / 10) (Nat.div_lt_self (by omega) (by omega)),
        digitVal_digitChar (n % 10) (Nat.mod_lt _ (by omega))]
      omega

theorem natRepr_length_lt10 (n : Nat) (h : n < 10) : (natRepr n).length = 1 := by
  rw [natRepr_lt10 n h]; rfl

theorem natRepr_length_2 (n : Nat) (h1 : 10 ≤ n) (h2 : n < 100) :
    (natRepr n).length = 2 := by
  rw [natRepr_ge10 n h1]
  have : n / 10 < 10 := by omega
  rw [List.length_append, natRepr_length_lt10 _ this]
  rfl

theorem natRepr_length_4 (n : Nat) (h1 : 1000 ≤ n) (h2 : n < 10000) :
    (natRepr n).length = 4 := by
  rw [natRepr_ge10 n (by omega)]
  have h3 : 100 ≤ n / 10 := by omega
  have h4 : n / 10 < 1000 := by omega
  rw [List.length_append, natRepr_ge10 _ (by omega)]
  have h5 : 10 ≤ n / 10 / 10 := by omega
  have h6 : n / 10 / 10 < 100 := by omega
  rw [List.length_append, natRepr_length_2 _ h5 h6]
  rfl

/- Character-class facts used throughout. -/

theorem digit_props (c : Char) (h : c.isDigit = true) :
    isPySpace c = false ∧ c ≠ '\\' ∧ c ≠ '\n' ∧ c ≠ FIELD_DELIMITER
    ∧ c ≠ '(' ∧ c ≠ ')' ∧ c ≠ ':' ∧ c ≠ '-' ∧ c ≠ '+' ∧ c ≠ '_'
    ∧ isWordChar c = true := by
  have hsp : isPySpace c = false := by
    cases hx : isPySpace c
    · rfl
    · exfalso
      unfold isPySpace at hx
      simp only [Bool.or_eq_true, decide_eq_true_eq] at hx
      rcases hx with ((((h1 | h1) | h1) | h1) | h1) | h1 <;>
        (subst h1; exact absurd h (by decide))
  refine ⟨hsp, ?_, ?_, ?_, ?_, ?_, ?_, ?_, ?_, ?_, ?_⟩
  · intro he; subst he; exact absurd h (by decide)
  · intro he; subst he; exact absurd h (by decide)
  · intro he; subst he; exact absurd h (by decide)
  · intro he; subst he; exact absurd h (by decide)
  · intro he; subst he; exact absurd h (by decide)
  · intro he; subst he; exact absurd h (by decide)
  · intro he; subst he; exact absurd h (by decide)
  · intro he; subst he; exact absurd h (by decide)
  · intro he; subst he; exact absurd h (by decide)
  · simp [isWordChar, Char.isAlphanum, h]

theorem dropWhile_of_none (p : Char → Bool) (s : Str) (h : ∀ c ∈ s, p c = false) :
    s.dropWhile p = s := by
  cases s with
  | nil => rfl
  | cons c cs =>
    rw [List.dropWhile_cons, h c (by simp)]
    simp

theorem stripStr_id (s : Str) (h : ∀ c ∈ s, isPySpace c = false) : stripStr s = s := by
  unfold stripStr
  rw [dropWhile_of_none _ _ h, dropWhile_of_none, List.reverse_reverse]
  intro c hc
  exact h c (by simpa using hc)

theorem parseDigitsUAux_digits (s : Str) :
    ∀ acc, (∀ c ∈ s, c.isDigit = true) →
      parseDigitsUAux acc s = some (s.foldl (fun a c => a * 10 + digitVal c) acc) := by
  induction s with
  | nil => intro acc _; rfl
  | cons c rest ih =>
    intro acc h
    have hc : c.isDigit = true := h c (by simp)
    rw [parseDigitsUAux.eq_def]
    simp only [hc, if_true]
    rw [ih _ (fun x hx => h x (by simp [hx]))]
    rfl

theorem parseDigitsU_natRepr (n : Nat) : parseDigitsU (natRepr n) = some n := by
  have hall := natRepr_all_digits n
  have hdn := digitsToNat_natRepr n
  cases he : natRepr n with
  | nil => exact absurd he (natRepr_ne_nil n)
  | cons c rest =>
    rw [he] at hall hdn
    rw [parseDigitsU, if_pos (hall c (by simp)),
      parseDigitsUAux_digits rest _ (fun x hx => hall x (by simp [hx]))]
    unfold digitsToNat at hdn
    rw [List.foldl_cons] at hdn
    simp only [Nat.zero_mul, Nat.zero_add] at hdn
    rw [hdn]

theorem pyInt_intRepr (i : Int) : pyInt (intRepr i) = .ok i := by
  by_cases hi : i < 0
  · have hrepr : intRepr i = '-' :: natRepr i.natAbs := by
      unfold intRepr; rw [if_pos hi]
    rw [hrepr]
    unfold pyInt
    rw [stripStr_id _ ?hsafe]
    case hsafe =>
      intro c hc
      rcases List.mem_cons.mp hc with h1 | h1
      · subst h1; decide
      · exact (digit_props c (natRepr_all_digits _ c h1)).1
    rw [pyIntCore, if_neg (by decide), if_pos rfl, parseDigitsU_natRepr]
    have hval : -((i.natAbs : Nat) : Int) = i := by omega
    exact congrArg Except.ok hval
  · have hrepr : intRepr i = natRepr i.toNat := by
      unfold intRepr; rw [if_neg hi]
    rw [hrepr]
    unfold pyInt
    rw [stripStr_id _ (fun c hc => (digit_props c (natRepr_all_digits _ c hc)).1)]
    cases he : natRepr i.toNat with
    | nil => exact absurd he (natRepr_ne_nil _)
    | cons c rest =>
      have hdig : c.isDigit = true := by
        have := natRepr_all_digits i.toNat c
        rw [he] at this
        exact this (by simp)
      rw [pyIntCore, if_neg ((digit_props c hdig).2.2.2.2.2.2.2.2.1),
        if_neg ((digit_props c hdig).2.2.2.2.2.2.2.1), ← he, parseDigitsU_natRepr]
      have hval : ((i.toNat : Nat) : Int) = i := Int.toNat_of_nonneg (by omega)
      exact congrArg Except.ok hval

/- escape and unescape fix strings without special characters. -/

theorem escChar_id (c : Char) (h : c ≠ '\\' ∧ c ≠ '\n' ∧ c ≠ FIELD_DELIMITER) :
    escChar c = [c] := by
  unfold escChar
  rw [if_neg h.1, if_neg h.2.1, if_neg h.2.2]

theorem escape_safe (s : Str)
    (h : ∀ c ∈ s, c ≠ '\\' ∧ c ≠ '\n' ∧ c ≠ FIELD_DELIMITER) : escape s = s := by
  rw [escape_eq_cmap]
  induction s with
  | nil => rfl
  | cons c cs ih =>
    rw [cmap, escChar_id c (h c (by simp)), ih (fun x hx => h x (by simp [hx]))]
    rfl

theorem pyReplace_head_ne (p0 : Char) (ps rep : Str) (s : Str)
    (h : ∀ c ∈ s, c ≠ p0) : pyReplace (p0 :: ps) rep s = s := by
  induction s with
  | nil => rfl
  | cons c cs ih =>
    rw [pyReplace_cons_neg]
    · rw [ih (fun x hx => h x (by simp [hx]))]
    · intro hpre
      rw [List.isPrefixOf] at hpre
      have := (Bool.and_eq_true _ _ |>.mp hpre).1
      exact h c (by simp) (eq_of_beq this).symm

theorem unescape_safe (s : Str) (h : ∀ c ∈ s, c ≠ '\\') : unescape s = s := by
  unfold unescape
  rw [pyReplace_head_ne '\\' _ _ s h, pyReplace_head_ne '\\' _ _ s h,
    pyReplace_head_ne '\\' _ _ s h]

theorem artifactFree_of_no_backslash (s : Str) (h : ∀ c ∈ s, c ≠ '\\') :
    artifactFree s = true := by
  induction s with
  | nil => rfl
  | cons c cs ih =>
    cases cs with
    | nil => rfl
    | cons b r =>
      rw [artifactFree]
      have hc : c ≠ '\\' := h c (by simp)
      have : artifactFree (b :: r) = true := ih (fun x hx => h x (by simp [hx]))
      simp [hc, this]

/- escape output facts. -/

theorem escChar_ne_nil (c : Char) : escChar c ≠ [] := by
  unfold escChar
  by_cases h1 : c = '\\'
  · simp [h1]
  · by_cases h2 : c = '\n'
    · simp [h1, h2]
    · by_cases h3 : c = FIELD_DELIMITER
      · simp [h1, h2, h3, FIELD_DELIMITER]
      · simp [h1, h2, h3]

theorem escape_ne_nil (s : Str) (h : s ≠ []) : escape s ≠ [] := by
  rw [escape_eq_cmap]
  cases s with
  | nil => exact absurd rfl h
  | cons c cs =>
    rw [cmap]
    intro hx
    exact escChar_ne_nil c (List.append_eq_nil.mp hx).1

theorem escape_no_delim_nl (s : Str) :
    ∀ c ∈ escape s, c ≠ FIELD_DELIMITER ∧ c ≠ '\n' := by
  rw [escape_eq_cmap]
  induction s with
  | nil => intro c hc; simp [cmap] at hc
  | cons d ds ih =>
    intro c hc
    rw [cmap, List.mem_append] at hc
    rcases hc with hc | hc
    · unfold escChar at hc
      by_cases h1 : d = '\\'
      · rw [if_pos h1] at hc
        simp at hc
        subst hc
        decide
      · rw [if_neg h1] at hc
        by_cases h2 : d = '\n'
        · rw [if_pos h2] at hc
          simp at hc
          rcases hc with hc | hc <;> (subst hc; decide)
        · rw [if_neg h2] at hc
          by_cases h3 : d = FIELD_DELIMITER
          · rw [if_pos h3] at hc
            simp at hc
            rcases hc with hc | hc <;> (subst hc; decide)
          · rw [if_neg h3] at hc
            simp at hc
            subst hc
            exact ⟨h3, h2⟩
    · exact ih c hc

/- joinDelim and pySplit are mutually inverse on delimiter-free columns. -/

theorem pySplit_no_delim (delim : Char) (x : Str) (h : ∀ c ∈ x, c ≠ delim) :
    pySplit delim x = [x] := by
  induction x with
  | nil => rfl
  | cons c cs ih =>
    rw [pySplit, if_neg (h c (by simp)), ih (fun d hd => h d (by simp [hd]))]

theorem pySplit_append (delim : Char) (x rest : Str) (h : ∀ c ∈ x, c ≠ delim) :
    pySplit delim (x ++ delim :: rest) = x :: pySplit delim rest := by
  induction x with
  | nil => rw [List.nil_append, pySplit, if_pos rfl]
  | cons c cs ih =>
    rw [List.cons_append, pySplit, if_neg (h c (by simp)),
      ih (fun d hd => h d (by simp [hd]))]

theorem pySplit_joinDelim (xs : List Str) (hne : xs ≠ [])
    (h : ∀ x ∈ xs, ∀ c ∈ x, c ≠ FIELD_DELIMITER) :
    pySplit FIELD_DELIMITER (joinDelim xs) = xs := by
  induction xs with
  | nil => exact absurd rfl hne
  | cons x rest ih =>
    cases rest with
    | nil =>
      rw [show joinDelim [x] = x from rfl]
      exact pySplit_no_delim _ x (h x (by simp))
    | cons y ys =>
      rw [show joinDelim (x :: y :: ys) = x ++ FIELD_DELIMITER :: joinDelim (y :: ys) from rfl,
        pySplit_append _ _ _ (h x (by simp))]
      rw [show pySplit FIELD_DELIMITER (joinDelim (y :: ys)) = y :: ys from
        ih (by simp) (fun z hz => h z (by simp [hz]))]

theorem rstripNl_id (s : Str) (h : ∀ c ∈ s, c ≠ '\n') : rstripNl s = s := by
  unfold rstripNl
  rw [dropWhile_of_none, List.reverse_reverse]
  intro c hc
  have := h c (by simpa using hc)
  simp [this]

/- Digit-run parsing lemmas for the date grammar. -/

theorem takeExactDigits_exact (ds : Str) (h : ∀ c ∈ ds, c.isDigit = true) :
    ∀ r, takeExactDigits ds.length (ds ++ r) = some (ds, r) := by
  induction ds with
  | nil => intro r; rfl
  | cons c cs ih =>
    intro r
    rw [List.length_cons, List.cons_append, takeExactDigits,
      if_pos (h c (by simp)), ih (fun x hx => h x (by simp [hx])) r]
    rfl

theorem takeExactDigits_stop (k : Nat) :
    ∀ ds c r, (∀ x ∈ ds, x.isDigit = true) → ds.length < k → c.isDigit = false →
      takeExactDigits k (ds ++ c :: r) = none := by
  induction k with
  | zero => intro ds c r _ h _; omega
  | succ k ih =>
    intro ds c r hds hlen hc
    cases ds with
    | nil =>
      rw [List.nil_append, takeExactDigits, if_neg (by rw [hc]; exact Bool.false_ne_true)]
    | cons d ds2 =>
      rw [List.cons_append, takeExactDigits, if_pos (hds d (by simp)),
        ih ds2 c r (fun x hx => hds x (by simp [hx])) (by simp at hlen; omega) hc]
      rfl

theorem pad2_eq_digits (n : Nat) (h : n ≤ 99) :
    pad2 n = [Nat.digitChar (n / 10), Nat.digitChar (n % 10)] := by
  unfold pad2
  by_cases h10 : n < 10
  · rw [if_pos h10, natRepr_lt10 n h10]
    have e1 : n / 10 = 0 := by omega
    have e2 : n % 10 = n := by omega
    rw [e1, e2]
    rfl
  · rw [if_neg h10, natRepr_ge10 n (by omega), natRepr_lt10 (n / 10) (by omega)]
    rfl

theorem pad2_all_digits (n : Nat) (h : n ≤ 99) : ∀ c ∈ pad2 n, c.isDigit = true := by
  rw [pad2_eq_digits n h]
  intro c hc
  simp at hc
  rcases hc with hc | hc <;>
    (subst hc; exact digitChar_isDigit _ (by omega))

/- Facts about the month table, one case per month. -/

theorem monthAbbrev_props (m : Nat) (h1 : 1 ≤ m) (h2 : m ≤ 12) :
    (monthAbbrev m).length = 3
    ∧ (∀ c ∈ monthAbbrev m,
        isWordChar c = true ∧ c.isDigit = false ∧ c ≠ '\\' ∧ c ≠ '\n'
        ∧ c ≠ FIELD_DELIMITER ∧ isPySpace c = false ∧ c ≠ '-' ∧ c ≠ ':')
    ∧ MONTH_BY_NAME.lookup (toLowerStr (monthAbbrev m)) = some m := by
  interval_cases m <;> refine ⟨rfl, ?_, by decide⟩ <;> decide

/- digitChar comparison facts. -/

theorem digit_ne_char (c x : Char) (h : c.isDigit = true) (hx : x.isDigit = false) :
    c ≠ x := by
  intro he
  rw [he, hx] at h
  exact Bool.false_ne_true h

theorem digitChar_le_digitChar (a b : Nat) (ha : a < 10) (hb : b < 10) :
    (Nat.digitChar a ≤ Nat.digitChar b) ↔ a ≤ b := by
  interval_cases a <;> interval_cases b <;> decide

theorem digitChar_eq_digitChar (a b : Nat) (ha : a < 10) (hb : b < 10) :
    (Nat.digitChar a = Nat.digitChar b) ↔ a = b := by
  interval_cases a <;> interval_cases b <;> decide

/- The strptime field parsers invert the zero-padded and plain decimal
   forms produced by the date fixer. -/

theorem strpMonth_natRepr (m : Nat) (h1 : 1 ≤ m) (h2 : m ≤ 12) (r : Str) :
    strpMonth (natRepr m ++ '-' :: r) = some (m, '-' :: r) := by
  interval_cases m <;>
    simp +decide [natRepr, natReprAux, strpMonth, digitVal, Nat.digitChar]

theorem strpDay_natRepr (d : Nat) (h1 : 1 ≤ d) (h2 : d ≤ 31) (r : Str) :
    strpDay (natRepr d ++ ' ' :: r) = some (d, ' ' :: r) := by
  interval_cases d <;>
    simp +decide [natRepr, natReprAux, strpDay, digitVal, Nat.digitChar]

theorem strpHour_pad2 (h : Nat) (hh : h ≤ 23) (r : Str) :
    strpHour (pad2 h ++ r) = some (h, r) := by
  rw [pad2_eq_digits h (by omega), List.cons_append, List.cons_append,
    List.nil_append, strpHour]
  by_cases h20 : 20 ≤ h
  · have e1 : h / 10 = 2 := by omega
    have hc1 : Nat.digitChar (h / 10) = '2' := by rw [e1]; rfl
    have hc2 : '0' ≤ Nat.digitChar (h % 10) ∧ Nat.digitChar (h % 10) ≤ '3' := by
      constructor
      · exact (digitChar_le_digitChar 0 (h % 10) (by omega) (by omega)).mpr (by omega)
      · exact (digitChar_le_digitChar (h % 10) 3 (by omega) (by omega)).mpr (by omega)
    rw [if_pos (by simp [hc1, hc2.1, hc2.2])]
    rw [digitVal_digitChar (h % 10) (by omega)]
    have : 20 + h % 10 = h := by omega
    rw [this]
  · have hne2 : Nat.digitChar (h / 10) ≠ '2' := by
      intro he
      have := (digitChar_eq_digitChar (h / 10) 2 (by omega) (by decide)).mp he
      omega
    rw [if_neg (by simp [hne2])]
    have hc1 : '0' ≤ Nat.digitChar (h / 10) ∧ Nat.digitChar (h / 10) ≤ '1' := by
      constructor
      · exact (digitChar_le_digitChar 0 (h / 10) (by omega) (by omega)).mpr (by omega)
      · exact (digitChar_le_digitChar (h / 10) 1 (by omega) (by omega)).mpr (by omega)
    rw [if_pos (by simp [hc1.1, hc1.2, digitChar_isDigit (h % 10) (by omega)])]
    rw [digitVal_digitChar (h / 10) (by omega), digitVal_digitChar (h % 10) (by omega)]
    have : h / 10 * 10 + h % 10 = h := by omega
    rw [this]

theorem strpMin_pad2 (m : Nat) (hm : m ≤ 59) (r : Str) :
    strpMin (pad2 m ++ r) = some (m, r) := by
  rw [pad2_eq_digits m (by omega), List.cons_append, List.cons_append,
    List.nil_append, strpMin]
  have hc1 : '0' ≤ Nat.digitChar (m / 10) ∧ Nat.digitChar (m / 10) ≤ '5' := by
    constructor
    · exact (digitChar_le_digitChar 0 (m / 10) (by omega) (by omega)).mpr (by omega)
    · exact (digitChar_le_digitChar (m / 10) 5 (by omega) (by omega)).mpr (by omega)
  rw [if_pos (by simp [hc1.1, hc1.2, digitChar_isDigit (m % 10) (by omega)])]
  rw [digitVal_digitChar (m / 10) (by omega), digitVal_digitChar (m % 10) (by omega)]
  have : m / 10 * 10 + m % 10 = m := by omega
  rw [this]

theorem strpSec_pad2 (s : Nat) (hs : s ≤ 59) (r : Str) :
    strpSec (pad2 s ++ r) = some (s, r) := by
  rw [pad2_eq_digits s (by omega), List.cons_append, List.cons_append,
    List.nil_append, strpSec]
  have hne6 : Nat.digitChar (s / 10) ≠ '6' := by
    intro he
    have := (digitChar_eq_digitChar (s / 10) 6 (by omega) (by decide)).mp he
    omega
  rw [if_neg (by simp [hne6])]
  have hc1 : '0' ≤ Nat.digitChar (s / 10) ∧ Nat.digitChar (s / 10) ≤ '5' := by
    constructor
    · exact (digitChar_le_digitChar 0 (s / 10) (by omega) (by omega)).mpr (by omega)
    · exact (digitChar_le_digitChar (s / 10) 5 (by omega) (by omega)).mpr (by omega)
  rw [if_pos (by simp [hc1.1, hc1.2, digitChar_isDigit (s % 10) (by omega)])]
  rw [digitVal_digitChar (s / 10) (by omega), digitVal_digitChar (s % 10) (by omega)]
  have : s / 10 * 10 + s % 10 = s := by omega
  rw [this]

/- Matcher-level lemmas for the TSDB-formatted date string. -/

theorem nowPattern_digit (c : Char) (hc : c.isDigit = true) (r : Str) :
    nowPattern (c :: r) = false := by
  unfold nowPattern
  have hne : ¬ ((c :: r).head? = some ':') := by
    simp only [List.head?_cons, Option.some.injEq]
    exact digit_ne_char c ':' hc (by decide)
  rw [if_neg hne]
  have ht : (('t' : Char) == c) = false :=
    beq_eq_false_iff_ne.mpr (Ne.symm (digit_ne_char c 't' hc (by decide)))
  have hn : (('n' : Char) == c) = false :=
    beq_eq_false_iff_ne.mpr (Ne.symm (digit_ne_char c 'n' hc (by decide)))
  show ((str "today").isPrefixOf (c :: r) || (str "now").isPrefixOf (c :: r)) = false
  rw [show str "today" = 't' :: str "oday" from rfl,
    show str "now" = 'n' :: str "ow" from rfl]
  rw [List.isPrefixOf, List.isPrefixOf, ht, hn]
  rfl

theorem matchYMD_day_first (day : Nat) (h1 : 1 ≤ day) (h2 : day ≤ 31) (r : Str) :
    matchYMD (natRepr day ++ '-' :: r) = none := by
  have hstop : takeExactDigits 4 (natRepr day ++ '-' :: r) = none := by
    apply takeExactDigits_stop 4 (natRepr day) '-' r (natRepr_all_digits day)
    · by_cases hd : day < 10
      · rw [natRepr_length_lt10 day hd]; omega
      · rw [natRepr_length_2 day (by omega) (by omega)]; omega
    · decide
  unfold matchYMD
  rw [hstop]

theorem digitsThenDash_day (day : Nat) (h1 : 1 ≤ day) (h2 : day ≤ 31)
    (m1 : Char) (hm1 : m1.isDigit = false) (r : Str) :
    digitsThenDash (natRepr day ++ '-' :: m1 :: r) = some (natRepr day, m1 :: r) := by
  by_cases hd : day < 10
  · rw [natRepr_lt10 day hd]
    show digitsThenDash (Nat.digitChar day :: '-' :: m1 :: r) = _
    rw [digitsThenDash]
    rw [if_neg (by simp +decide)]
    rw [if_pos (by simp [digitChar_isDigit day hd])]
  · have hform : natRepr day = [Nat.digitChar (day / 10), Nat.digitChar (day % 10)] := by
      rw [natRepr_ge10 day (by omega), natRepr_lt10 (day / 10) (by omega)]
      rfl
    rw [hform]
    show digitsThenDash
        (Nat.digitChar (day / 10) :: Nat.digitChar (day % 10) :: '-' :: m1 :: r) = _
    rw [digitsThenDash]
    rw [if_pos (by
      simp [digitChar_isDigit (day / 10) (by omega),
        digitChar_isDigit (day % 10) (by omega)])]

theorem mThenDash_month (m1 m2 m3 : Char)
    (hw : isWordChar m1 = true ∧ isWordChar m2 = true ∧ isWordChar m3 = true)
    (hd : m1.isDigit = false) (r : Str) :
    mThenDash (m1 :: m2 :: m3 :: '-' :: r) = some ([m1, m2, m3], r) := by
  unfold mThenDash
  have hdtd : digitsThenDash (m1 :: m2 :: m3 :: '-' :: r) = none := by
    rw [digitsThenDash]
    rw [if_neg (by simp [hd]), if_neg (by simp [hd])]
  rw [hdtd]
  have hw3 : takeWord3 (m1 :: m2 :: m3 :: '-' :: r) = some ([m1, m2, m3], '-' :: r) := by
    rw [takeWord3, if_pos (by simp [hw.1, hw.2.1, hw.2.2])]
  rw [hw3]
  rfl

theorem takeY_year (y : Nat) (h1 : 1000 ≤ y) (h2 : y ≤ 9999) (r : Str) :
    takeY (natRepr y ++ r) = some (natRepr y, r) := by
  unfold takeY
  rw [show (4 : Nat) = (natRepr y).length from (natRepr_length_4 y h1 (by omega)).symm,
    takeExactDigits_exact (natRepr y) (natRepr_all_digits y) r]

theorem matchTimeOpt_nil : matchTimeOpt [] = ((none, none, none), []) := rfl

theorem dropWhile_head_false (p : Char → Bool) (c : Char) (r : Str) (hc : p c = false) :
    (c :: r).dropWhile p = c :: r := by
  rw [List.dropWhile_cons, hc]
  simp

theorem dropWhile_head_true (p : Char → Bool) (c : Char) (r : Str) (hc : p c = true) :
    (c :: r).dropWhile p = r.dropWhile p := by
  rw [List.dropWhile_cons, hc]
  simp

theorem matchTimeOpt_hms (h mi s : Nat) (hh : h ≤ 23) (hmi : mi ≤ 59) (hs : s ≤ 59) :
    matchTimeOpt (' ' :: (pad2 h ++ ':' :: (pad2 mi ++ ':' :: pad2 s)))
      = ((some (pad2 h), some (pad2 mi), some (pad2 s)), []) := by
  have hdw : (' ' :: (pad2 h ++ ':' :: (pad2 mi ++ ':' :: pad2 s))).dropWhile isPySpace
      = pad2 h ++ ':' :: (pad2 mi ++ ':' :: pad2 s) := by
    rw [dropWhile_head_true isPySpace ' ' _ (by decide),
      pad2_eq_digits h (by omega), List.cons_append,
      dropWhile_head_false isPySpace _ _
        ((digit_props _ (digitChar_isDigit (h / 10) (by omega))).1),
      ← List.cons_append, ← pad2_eq_digits h (by omega)]
  have hps : parenSkip (pad2 h ++ ':' :: (pad2 mi ++ ':' :: pad2 s))
      = pad2 h ++ ':' :: (pad2 mi ++ ':' :: pad2 s) := by
    unfold parenSkip
    rw [if_neg]
    rw [pad2_eq_digits h (by omega), List.cons_append, List.head?_cons]
    simp only [Option.some.injEq]
    exact digit_ne_char _ '(' (digitChar_isDigit (h / 10) (by omega)) (by decide)
  have hte1 : takeExactDigits 2 (pad2 h ++ ':' :: (pad2 mi ++ ':' :: pad2 s))
      = some (pad2 h, ':' :: (pad2 mi ++ ':' :: pad2 s)) := by
    rw [show (2 : Nat) = (pad2 h).length by rw [pad2_eq_digits h (by omega)]; rfl]
    exact takeExactDigits_exact (pad2 h) (pad2_all_digits h (by omega)) _
  have hte2 : takeExactDigits 2 (pad2 mi ++ ':' :: pad2 s)
      = some (pad2 mi, ':' :: pad2 s) := by
    rw [show (2 : Nat) = (pad2 mi).length by rw [pad2_eq_digits mi (by omega)]; rfl]
    exact takeExactDigits_exact (pad2 mi) (pad2_all_digits mi (by omega)) _
  have hte3 : takeExactDigits 2 (pad2 s) = some (pad2 s, []) := by
    rw [show takeExactDigits 2 (pad2 s) = takeExactDigits 2 (pad2 s ++ []) by
      rw [List.append_nil]]
    rw [show (2 : Nat) = (pad2 s).length by rw [pad2_eq_digits s (by omega)]; rfl]
    exact takeExactDigits_exact (pad2 s) (pad2_all_digits s (by omega)) _
  unfold matchTimeOpt
  rw [hdw, hps, hte1]
  simp only [hte2]
  unfold matchTimeFinish
  simp only [hte3]
  rfl

/- Assembly lemmas for strptime on the rebuilt date string. -/

theorem daysInMonth_le (y m : Nat) : daysInMonth y m ≤ 31 := by
  unfold daysInMonth
  split_ifs <;> omega

theorem strpYear_natRepr (y : Nat) (h1 : 1000 ≤ y) (h2 : y ≤ 9999) (r : Str) :
    strpYear (natRepr y ++ r) = some (y, r) := by
  unfold strpYear
  rw [show (4 : Nat) = (natRepr y).length from (natRepr_length_4 y h1 (by omega)).symm,
    takeExactDigits_exact (natRepr y) (natRepr_all_digits y) r]
  simp [digitsToNat_natRepr]

theorem lit_self (c : Char) (r : Str) : lit c (c :: r) = some r := by
  rw [lit, if_pos rfl]

theorem wsPlus_pad2 (x : Nat) (hx : x ≤ 99) (r : Str) :
    wsPlus (' ' :: (pad2 x ++ r)) = some (pad2 x ++ r) := by
  rw [wsPlus, if_pos (by decide)]
  rw [pad2_eq_digits x hx, List.cons_append,
    dropWhile_head_false isPySpace _ _
      ((digit_props _ (digitChar_isDigit (x / 10) (by omega))).1),
    ← List.cons_append, ← pad2_eq_digits x hx]

theorem strptime_build (y m d h mi s : Nat)
    (hy1 : 1000 ≤ y) (hy2 : y ≤ 9999) (hm1 : 1 ≤ m) (hm2 : m ≤ 12)
    (hd1 : 1 ≤ d) (hd2 : d ≤ daysInMonth y m)
    (hh : h ≤ 23) (hmi : mi ≤ 59) (hs : s ≤ 59) :
    strptimeYmdHMS (natRepr y ++ '-' :: (natRepr m ++ '-' :: (natRepr d
        ++ ' ' :: (pad2 h ++ ':' :: (pad2 mi ++ ':' :: pad2 s)))))
      = .ok ⟨y, m, d, h, mi, s⟩ := by
  have hd31 : d ≤ 31 := le_trans hd2 (daysInMonth_le y m)
  unfold strptimeYmdHMS
  rw [strpYear_natRepr y hy1 hy2 _]
  simp only [lit_self]
  rw [strpMonth_natRepr m hm1 hm2 _]
  simp only [lit_self]
  rw [strpDay_natRepr d hd1 hd31 _]
  simp only []
  rw [wsPlus_pad2 h (by omega) _]
  simp only []
  rw [strpHour_pad2 h hh _]
  simp only [lit_self]
  rw [strpMin_pad2 mi hmi _]
  simp only [lit_self]
  rw [show pad2 s = pad2 s ++ [] from (List.append_nil _).symm, strpSec_pad2 s hs []]
  simp only []
  rw [if_pos ⟨by trivial, by omega, hd2, hs⟩]

theorem parse_core (dt : DateTime) (m1 m2 m3 : Char) (T TR : Str)
    (HG MG SG : Option Str)
    (hy1 : 1000 ≤ dt.year) (hy2 : dt.year ≤ 9999)
    (hm1 : 1 ≤ dt.month) (hm2 : dt.month ≤ 12)
    (hd1 : 1 ≤ dt.day) (hd2 : dt.day ≤ daysInMonth dt.year dt.month)
    (hhr : dt.hour ≤ 23) (hmin : dt.minute ≤ 59) (hsec : dt.second ≤ 59)
    (hw : isWordChar m1 = true ∧ isWordChar m2 = true ∧ isWordChar m3 = true)
    (hm1d : m1.isDigit = false)
    (hlook : MONTH_BY_NAME.lookup (toLowerStr [m1, m2, m3]) = some dt.month)
    (hTO : matchTimeOpt T = ((HG, MG, SG), TR))
    (hH : HG.getD (str "00") = pad2 dt.hour)
    (hM : MG.getD (str "00") = pad2 dt.minute)
    (hS : SG.getD (str "00") = pad2 dt.second) :
    parseDatetime (natRepr dt.day ++ '-' :: (m1 :: m2 :: m3 :: ('-' :: (natRepr dt.year ++ T))))
      = .ok dt := by
  have hd31 : dt.day ≤ 31 := le_trans hd2 (daysInMonth_le _ _)
  have hnp : nowPattern (natRepr dt.day
      ++ '-' :: (m1 :: m2 :: m3 :: ('-' :: (natRepr dt.year ++ T)))) = false := by
    have hne := natRepr_ne_nil dt.day
    cases hd0 : natRepr dt.day with
    | nil => exact absurd hd0 hne
    | cons c0 cs0 =>
      rw [List.cons_append]
      refine nowPattern_digit c0 ?_ _
      have := natRepr_all_digits dt.day c0
      rw [hd0] at this
      exact this (by simp)
  unfold parseDatetime
  rw [hnp]
  simp only [Bool.false_eq_true, if_false]
  rw [matchYMD_day_first dt.day hd1 hd31 _]
  simp only []
  unfold matchDMY
  rw [digitsThenDash_day dt.day hd1 hd31 m1 hm1d _]
  simp only []
  unfold matchMYTail
  rw [mThenDash_month m1 m2 m3 hw hm1d _]
  simp only []
  rw [takeY_year dt.year hy1 hy2 _]
  simp only [hTO]
  unfold dateFix dateFixMonth dateFixYear
  simp only []
  rw [if_pos (show ([m1, m2, m3] : Str).length = 3 from rfl), hlook]
  simp only []
  rw [natRepr_length_4 dt.year hy1 (by omega)]
  rw [if_neg (by omega)]
  simp only [Option.getD_some, hH, hM, hS]
  have hsb := strptime_build dt.year dt.month dt.day dt.hour dt.minute dt.second
    hy1 hy2 hm1 hm2 hd1 hd2 hhr hmin hsec
  simp only [List.cons_append, List.append_assoc] at hsb ⊢
  exact hsb

theorem parseDatetime_format (dt : DateTime) (hv : ValidDate dt) :
    parseDatetime (dateFormatTSDB dt) = .ok dt := by
  obtain ⟨hy1, hy2, hm1, hm2, hd1, hd2, hhr, hmin, hsec⟩ := hv
  obtain ⟨habl, hprops, hlook⟩ := monthAbbrev_props dt.month hm1 hm2
  obtain ⟨m1, m2, m3, hmon⟩ := List.length_eq_three.mp habl
  rw [hmon] at hprops hlook
  have hw : isWordChar m1 = true ∧ isWordChar m2 = true ∧ isWordChar m3 = true :=
    ⟨(hprops m1 (by simp)).1, (hprops m2 (by simp)).1, (hprops m3 (by simp)).1⟩
  have hm1d : m1.isDigit = false := (hprops m1 (by simp)).2.1
  by_cases hmid : dt.hour = 0 ∧ dt.minute = 0 ∧ dt.second = 0
  · have hfmt : dateFormatTSDB dt
        = natRepr dt.day ++ '-' :: (m1 :: m2 :: m3 :: ('-' :: (natRepr dt.year ++ []))) := by
      unfold dateFormatTSDB
      rw [hmon, if_pos hmid]
      simp [List.cons_append, List.append_assoc]
    rw [hfmt]
    refine parse_core dt m1 m2 m3 [] [] none none none
      hy1 hy2 hm1 hm2 hd1 hd2 hhr hmin hsec hw hm1d hlook
      matchTimeOpt_nil ?_ ?_ ?_
    · rw [hmid.1]; rfl
    · rw [hmid.2.1]; rfl
    · rw [hmid.2.2]; rfl
  · have hfmt : dateFormatTSDB dt
        = natRepr dt.day ++ '-' :: (m1 :: m2 :: m3 :: ('-' :: (natRepr dt.year
            ++ (' ' :: (pad2 dt.hour ++ ':' :: (pad2 dt.minute ++ ':' :: pad2 dt.second)))))) := by
      unfold dateFormatTSDB
      rw [hmon, if_neg hmid]
      simp [List.cons_append, List.append_assoc]
    rw [hfmt]
    exact parse_core dt m1 m2 m3 _ []
      (some (pad2 dt.hour)) (some (pad2 dt.minute)) (some (pad2 dt.second))
      hy1 hy2 hm1 hm2 hd1 hd2 hhr hmin hsec hw hm1d hlook
      (matchTimeOpt_hms dt.hour dt.minute dt.second hhr hmin hsec) rfl rfl rfl

theorem intRepr_ne_nil (i : Int) : intRepr i ≠ [] := by
  unfold intRepr
  by_cases hi : i < 0
  · rw [if_pos hi]; simp
  · rw [if_neg hi]; exact natRepr_ne_nil _

theorem intRepr_chars (i : Int) : ∀ c ∈ intRepr i, c.isDigit = true ∨ c = '-' := by
  unfold intRepr
  by_cases hi : i < 0
  · rw [if_pos hi]
    intro c hc
    rcases List.mem_cons.mp hc with hc | hc
    · right; exact hc
    · left; exact natRepr_all_digits _ c hc
  · rw [if_neg hi]
    intro c hc
    left
    exact natRepr_all_digits _ c hc

theorem intRepr_safe (i : Int) :
    ∀ c ∈ intRepr i, c ≠ '\\' ∧ c ≠ '\n' ∧ c ≠ FIELD_DELIMITER := by
  intro c hc
  rcases intRepr_chars i c hc with hd | hd
  · exact ⟨digit_ne_char c '\\' hd (by decide), digit_ne_char c '\n' hd (by decide),
      digit_ne_char c FIELD_DELIMITER hd (by decide)⟩
  · subst hd
    refine ⟨by decide, by decide, by decide⟩

theorem safe_append {P : Char → Prop} (a b : Str)
    (ha : ∀ c ∈ a, P c) (hb : ∀ c ∈ b, P c) : ∀ c ∈ a ++ b, P c := by
  intro c hc
  rcases List.mem_append.mp hc with h | h
  · exact ha c h
  · exact hb c h

theorem safe_cons {P : Char → Prop} (x : Char) (b : Str)
    (hx : P x) (hb : ∀ c ∈ b, P c) : ∀ c ∈ x :: b, P c := by
  intro c hc
  rcases List.mem_cons.mp hc with h | h
  · subst h; exact hx
  · exact hb c h

theorem dateFormat_safe (dt : DateTime) (hm1 : 1 ≤ dt.month) (hm2 : dt.month ≤ 12)
    (hhr : dt.hour ≤ 23) (hmin : dt.minute ≤ 59) (hsec : dt.second ≤ 59) :
    ∀ c ∈ dateFormatTSDB dt, c ≠ '\\' ∧ c ≠ '\n' ∧ c ≠ FIELD_DELIMITER := by
  have hdig : ∀ x : Char, x.isDigit = true →
      x ≠ '\\' ∧ x ≠ '\n' ∧ x ≠ FIELD_DELIMITER := fun x hx =>
    ⟨digit_ne_char x '\\' hx (by decide), digit_ne_char x '\n' hx (by decide),
      digit_ne_char x FIELD_DELIMITER hx (by decide)⟩
  have hmonth : ∀ x ∈ monthAbbrev dt.month,
      x ≠ '\\' ∧ x ≠ '\n' ∧ x ≠ FIELD_DELIMITER := by
    intro x hx
    have hmp := (monthAbbrev_props dt.month hm1 hm2).2.1 x hx
    exact ⟨hmp.2.2.1, hmp.2.2.2.1, hmp.2.2.2.2.1⟩
  unfold dateFormatTSDB
  refine safe_append _ _ (safe_append _ _ (safe_append _ _ ?_ ?_) ?_) ?_
  · exact fun c hc => hdig c (natRepr_all_digits _ c hc)
  · exact safe_cons '-' _ ⟨by decide, by decide, by decide⟩ hmonth
  · exact safe_cons '-' _ ⟨by decide, by decide, by decide⟩
      (fun c hc => hdig c (natRepr_all_digits _ c hc))
  · by_cases hmid : dt.hour = 0 ∧ dt.minute = 0 ∧ dt.second = 0
    · rw [if_pos hmid]
      intro c hc
      exact absurd hc (List.not_mem_nil c)
    · rw [if_neg hmid]
      refine safe_append _ _ (safe_append _ _ ?_ ?_) ?_
      · exact safe_cons ' ' _ ⟨by decide, by decide, by decide⟩
          (fun c hc => hdig c (pad2_all_digits _ (by omega) c hc))
      · exact safe_cons ':' _ ⟨by decide, by decide, by decide⟩
          (fun c hc => hdig c (pad2_all_digits _ (by omega) c hc))
      · exact safe_cons ':' _ ⟨by decide, by decide, by decide⟩
          (fun c hc => hdig c (pad2_all_digits _ (by omega) c hc))

theorem dateFormat_ne_nil (dt : DateTime) : dateFormatTSDB dt ≠ [] := by
  unfold dateFormatTSDB
  intro hx
  exact natRepr_ne_nil dt.day
    (List.append_eq_nil.mp
      (List.append_eq_nil.mp (List.append_eq_nil.mp hx).1).1).1

/- Per-column round trip: the formatted value is nonempty, artifact-free,
   and casts back to the original value. -/
theorem column_props (f : Field) (v : Value) (h : GoodPair f v) :
    format f.datatype v (some f.dflt) ≠ []
    ∧ artifactFree (format f.datatype v (some f.dflt)) = true
    ∧ cast f.datatype (some (format f.datatype v (some f.dflt))) = .ok v := by
  rcases h with ⟨hdt, i, hv⟩ | ⟨hdt, s, hv, hsne, haf⟩ | ⟨hdt, dt, hv, hvd⟩
  · subst hv
    have hfmt : format f.datatype (.intv i) (some f.dflt) = intRepr i := rfl
    rw [hfmt, hdt]
    refine ⟨intRepr_ne_nil i, ?_, ?_⟩
    · exact artifactFree_of_no_backslash _ (fun c hc => (intRepr_safe i c hc).1)
    · unfold cast
      simp only []
      rw [if_neg (intRepr_ne_nil i), if_pos trivial, pyInt_intRepr]
      rfl
  · subst hv
    have hfmt : format f.datatype (.text s) (some f.dflt) = s := rfl
    rw [hfmt, hdt]
    refine ⟨hsne, haf, ?_⟩
    unfold cast
    simp only []
    rw [if_neg hsne, if_neg (by decide), if_neg (by decide), if_neg (by decide),
      if_pos trivial]
  · subst hv
    have hfmt : format f.datatype (.date dt) (some f.dflt) = dateFormatTSDB dt := by
      unfold format
      rw [hdt]
      simp only []
      rw [if_pos trivial]
    rw [hfmt, hdt]
    obtain ⟨hy1, hy2, hm1, hm2, hd1, hd2, hhr, hmin, hsec⟩ := hvd
    refine ⟨dateFormat_ne_nil dt, ?_, ?_⟩
    · exact artifactFree_of_no_backslash _
        (fun c hc => (dateFormat_safe dt hm1 hm2 hhr hmin hsec c hc).1)
    · unfold cast
      simp only []
      rw [if_neg (dateFormat_ne_nil dt), if_neg (by decide), if_neg (by decide),
        if_pos trivial,
        parseDatetime_format dt ⟨hy1, hy2, hm1, hm2, hd1, hd2, hhr, hmin, hsec⟩]
      rfl

theorem joinDelim_chars (xs : List Str) :
    ∀ c ∈ joinDelim xs, c = FIELD_DELIMITER ∨ ∃ x ∈ xs, c ∈ x := by
  induction xs with
  | nil => intro c hc; simp [joinDelim] at hc
  | cons x rest ih =>
    cases rest with
    | nil =>
      intro c hc
      rw [show joinDelim [x] = x from rfl] at hc
      exact Or.inr ⟨x, by simp, hc⟩
    | cons y ys =>
      intro c hc
      rw [show joinDelim (x :: y :: ys)
          = x ++ FIELD_DELIMITER :: joinDelim (y :: ys) from rfl] at hc
      rcases List.mem_append.mp hc with hc | hc
      · exact Or.inr ⟨x, by simp, hc⟩
      · rcases List.mem_cons.mp hc with hc | hc
        · exact Or.inl hc
        · rcases ih c hc with hc | ⟨z, hz, hcz⟩
          · exact Or.inl hc
          · exact Or.inr ⟨z, by simp [hz], hcz⟩

theorem except_bind_ok {ε α β : Type} (a : α) (f : α → Except ε β) :
    (Except.ok a >>= f) = f a := rfl

theorem mapM_cast (fs : List Field) (vs : List Value) (hlen : vs.length = fs.length)
    (h : ∀ p ∈ fs.zip vs,
      cast p.1.datatype (some (format p.1.datatype p.2 (some p.1.dflt))) = .ok p.2) :
    (((fs.zip vs).map
        (fun p => some (format p.1.datatype p.2 (some p.1.dflt)))).zip fs).mapM
      (fun p => cast p.2.datatype p.1) = .ok vs := by
  induction fs generalizing vs with
  | nil =>
    cases vs with
    | nil => rfl
    | cons v vt => simp at hlen
  | cons f ft ih =>
    cases vs with
    | nil => simp at hlen
    | cons v vt =>
      simp only [List.zip_cons_cons, List.map_cons, List.mapM_cons]
      rw [h (f, v) (by simp)]
      rw [ih vt (by simpa using hlen) (fun p hp => h p (by simp [hp]))]
      rfl

/- The encode-decode round trip for nonempty field sequences and good
   value-field pairs. -/
theorem decode_encode_aux (fs : List Field) (vs : List Value)
    (hlen : vs.length = fs.length) (hne : fs ≠ [])
    (hgood : ∀ p ∈ fs.zip vs, GoodPair p.1 p.2) :
    (encode vs (some fs)).bind (fun l => decode l (some fs)) = .ok vs := by
  have henc : encode vs (some fs)
      = .ok (joinDelim (((fs.zip vs).map
          (fun p => format p.1.datatype p.2 (some p.1.dflt))).map escape)) := by
    unfold encode
    simp only []
    rw [if_neg (show ¬ vs.length ≠ fs.length from fun hx => hx hlen)]
  rw [henc]
  show decode _ (some fs) = .ok vs
  have hzlen : (fs.zip vs).length = fs.length := by
    rw [List.length_zip, hlen, Nat.min_self]
  have hprops : ∀ p ∈ fs.zip vs,
      format p.1.datatype p.2 (some p.1.dflt) ≠ []
      ∧ artifactFree (format p.1.datatype p.2 (some p.1.dflt)) = true
      ∧ cast p.1.datatype (some (format p.1.datatype p.2 (some p.1.dflt)))
          = .ok p.2 :=
    fun p hp => column_props p.1 p.2 (hgood p hp)
  have hescmem : ∀ x ∈ ((fs.zip vs).map
      (fun p => format p.1.datatype p.2 (some p.1.dflt))).map escape,
      ∀ c ∈ x, c ≠ FIELD_DELIMITER ∧ c ≠ '\n' := by
    intro x hx c hc
    obtain ⟨y, _, hy⟩ := List.mem_map.mp hx
    subst hy
    exact escape_no_delim_nl y c hc
  unfold decode
  have hnl : rstripNl (joinDelim (((fs.zip vs).map
      (fun p => format p.1.datatype p.2 (some p.1.dflt))).map escape))
      = joinDelim (((fs.zip vs).map
          (fun p => format p.1.datatype p.2 (some p.1.dflt))).map escape) := by
    apply rstripNl_id
    intro c hc
    rcases joinDelim_chars _ c hc with hc | ⟨x, hx, hcx⟩
    · subst hc; decide
    · exact (hescmem x hx c hcx).2
  rw [hnl]
  have hsplit : pySplit FIELD_DELIMITER (joinDelim (((fs.zip vs).map
      (fun p => format p.1.datatype p.2 (some p.1.dflt))).map escape))
      = ((fs.zip vs).map
          (fun p => format p.1.datatype p.2 (some p.1.dflt))).map escape := by
    apply pySplit_joinDelim
    · intro hx
      have := congrArg List.length hx
      simp [hzlen] at this
      exact hne this
    · intro x hx c hc
      exact (hescmem x hx c hc).1
  rw [hsplit]
  have hraw : (((fs.zip vs).map
      (fun p => format p.1.datatype p.2 (some p.1.dflt))).map escape).map
        (fun c => if c = [] then none else some (unescape c))
      = (fs.zip vs).map
          (fun p => some (format p.1.datatype p.2 (some p.1.dflt))) := by
    rw [List.map_map, List.map_map]
    apply List.map_congr_left
    intro p hp
    obtain ⟨hne', haf, _⟩ := hprops p hp
    simp only [Function.comp]
    rw [if_neg (escape_ne_nil _ hne'), unescape_escape_aux _ haf]
  rw [hraw]
  dsimp only
  rw [if_neg (show ¬ ((fs.zip vs).map
      (fun p => some (format p.1.datatype p.2 (some p.1.dflt)))).length ≠ fs.length by
    simp only [List.length_map, hzlen]
    exact fun hx => hx rfl)]
  exact mapM_cast fs vs hlen (fun p hp => (hprops p hp).2.2)

/-- Claim C1, counterexample.  A record holding a single None value for an
:integer field has matching length and no unsupported datatype, yet the
round trip returns the integer -1, not None: encode substitutes the
field's default "-1" for None and decode casts "-1" back to the integer
-1 rather than to None. -/
theorem claim_C1_counterexample :
    ([Value.null] : List Value).length
        = [mkField (str "i-id") (str ":integer") [] none].length
    ∧ (encode [Value.null] (some [mkField (str "i-id") (str ":integer") [] none])).bind
        (fun l => decode l (some [mkField (str "i-id") (str ":integer") [] none]))
      = .ok [Value.intv (-1)]
    ∧ (Except.ok [Value.intv (-1)] : Except PyErr (List Value)) ≠ .ok [Value.null] := by
  decide

/-- Claim C1, amended.  decode (encode record fields) fields recovers the
record for every nonempty field sequence of matching length whose values
are non-null and match their field's declared datatype, where string
values are nonempty and contain no backslash-n or backslash-s runs, and
date values are valid datetimes with four-digit years and second
precision.  Null values do not round-trip (they come back as the field's
coded default, e.g. -1 for :integer), the empty string comes back as
None, and an empty field sequence is rejected by decode's column-count
check. -/
theorem claim_C1_roundtrip (fs : List Field) (vs : List Value)
    (hlen : vs.length = fs.length) (hne : fs ≠ [])
    (hgood : ∀ p ∈ fs.zip vs, GoodPair p.1 p.2) :
    (encode vs (some fs)).bind (fun l => decode l (some fs)) = .ok vs :=
  decode_encode_aux fs vs hlen hne hgood

/-- Claim C1, witness: a concrete record with an integer, a string
containing the delimiter and a backslash, and a date with a time of day
round-trips through encode and decode. -/
theorem claim_C1_witness :
    (encode [Value.intv 42, Value.text (str "It r@ined\\."),
             Value.date ⟨2002, 12, 1, 15, 31, 1⟩]
        (some [mkField (str "i-id") (str ":integer") [] none,
               mkField (str "i-input") (str ":string") [] none,
               mkField (str "run-date") (str ":date") [] none])).bind
      (fun l => decode l
        (some [mkField (str "i-id") (str ":integer") [] none,
               mkField (str "i-input") (str ":string") [] none,
               mkField (str "run-date") (str ":date") [] none]))
    = .ok [Value.intv 42, Value.text (str "It r@ined\\."),
           Value.date ⟨2002, 12, 1, 15, 31, 1⟩] := by
  refine claim_C1_roundtrip _ _ rfl (by decide) ?_
  intro p hp
  simp only [List.zip_cons_cons, List.zip_nil_right, List.mem_cons,
    List.not_mem_nil, or_false] at hp
  rcases hp with rfl | rfl | rfl
  · exact Or.inl ⟨rfl, 42, rfl⟩
  · exact Or.inr (Or.inl ⟨rfl, str "It r@ined\\.", rfl, by decide, by decide⟩)
  · exact Or.inr (Or.inr ⟨rfl, ⟨2002, 12, 1, 15, 31, 1⟩, rfl,
      by unfold ValidDate; decide⟩)

/-- Claim C9, counterexample.  The field "polarity" appears in the
coded-attribute table with entry "-1", and the override applies whatever
the datatype is: a :string field named "polarity" gets default "-1", not
the empty string the claim assigns to every non-integer field. -/
theorem claim_C9_counterexample :
    (mkField (str "polarity") (str ":string") [] none).dflt = str "-1"
    ∧ str "-1" ≠ ([] : Str) := by
  decide

/-- Claim C9, amended.  A constructed field's default is the
coded-attribute table's entry whenever the field's name appears there,
regardless of datatype; for names outside the table it is "-1" when the
datatype is :integer and the empty string otherwise. -/
theorem claim_C9_default (name dt : Str) (flags : List Str) (c : Option Str) :
    (∀ v, TSDB_CODED_ATTRIBUTES.lookup name = some v →
        (mkField name dt flags c).dflt = v)
    ∧ (TSDB_CODED_ATTRIBUTES.lookup name = none →
        (mkField name dt flags c).dflt
          = if dt = str ":integer" then str "-1" else []) := by
  constructor
  · intro v h; simp [mkField, h]
  · intro h; simp [mkField, h]

/-- Claim C9, witness: the coded name "i-wf" gets default "1" even at a
:date datatype, while the uncoded name "i-input" at :string gets the
empty default. -/
theorem claim_C9_witness :
    (mkField (str "i-wf") (str ":date") [] none).dflt = str "1"
    ∧ (mkField (str "i-input") (str ":string") [] none).dflt = [] := by
  constructor
  · exact (claim_C9_default (str "i-wf") (str ":date") [] none).1
      (str "1") (by decide)
  · have h := (claim_C9_default (str "i-input") (str ":string") [] none).2
      (by decide)
    rw [if_neg (by decide)] at h
    exact h

/-- Claim C8, confirmed.  Two-digit years pivot at 93: for every y below
100, casting "01-jan-" followed by the two-digit rendering of y yields
January 1 of 1900+y when 93 <= y and of 2000+y otherwise.  A date with a
parenthesised time keeps it (cast ':date' "01-dec-02 (15:31:01)" is
2002-12-01 15:31:01) and a missing day defaults to 01 with time 00:00:00
(cast ':date' "apr-95" is 1995-04-01 00:00:00). -/
theorem claim_C8_date_grammar :
    (∀ y, y < 100 →
      cast (str ":date") (some (str "01-jan-" ++ pad2 y))
        = .ok (.date ⟨if 93 ≤ y then 1900 + y else 2000 + y, 1, 1, 0, 0, 0⟩))
    ∧ cast (str ":date") (some (str "01-dec-02 (15:31:01)"))
        = .ok (.date ⟨2002, 12, 1, 15, 31, 1⟩)
    ∧ cast (str ":date") (some (str "apr-95"))
        = .ok (.date ⟨1995, 4, 1, 0, 0, 0⟩) := by
  refine ⟨?_, by decide, by decide⟩
  decide

/-- Claim C8, witness: the pivot cases at two concrete two-digit years,
93 mapping to 1993 and 2 mapping to 2002. -/
theorem claim_C8_witness :
    cast (str ":date") (some (str "01-jan-" ++ pad2 93))
        = .ok (.date ⟨1993, 1, 1, 0, 0, 0⟩)
    ∧ cast (str ":date") (some (str "01-jan-" ++ pad2 2))
        = .ok (.date ⟨2002, 1, 1, 0, 0, 0⟩) := by
  constructor
  · have h := claim_C8_date_grammar.1 93 (by decide)
    rw [if_pos (by decide)] at h
    exact h
  · have h := claim_C8_date_grammar.1 2 (by decide)
    rw [if_neg (by decide)] at h
    exact h

/- Values decoded without fields are raw: text or null. -/
theorem decode_none_raw (l : Str) (vs : List Value)
    (h : decode l none = .ok vs) :
    ∀ v ∈ vs, (∃ s, v = .text s) ∨ v = .null := by
  unfold decode at h
  dsimp only at h
  injection h with h
  subst h
  intro v hv
  rw [List.mem_map] at hv
  obtain ⟨c, _, rfl⟩ := hv
  cases c with
  | none => exact Or.inr rfl
  | some s => exact Or.inl ⟨s, rfl⟩

/- Every element of a successful mapM output comes from applying the
   function to some input element. -/
theorem mapM_mem_ex {α β : Type} (f : α → Except PyErr β) :
    ∀ (l : List α) (out : List β), l.mapM f = .ok out →
      ∀ b ∈ out, ∃ a ∈ l, f a = .ok b := by
  intro l
  induction l with
  | nil =>
    intro out h b hb
    have h' : (Except.ok ([] : List β) : Except PyErr (List β)) = .ok out := h
    injection h' with h'
    subst h'
    exact absurd hb (List.not_mem_nil b)
  | cons x xs ih =>
    intro out h b hb
    rw [List.mapM_cons] at h
    cases hfx : f x with
    | error e => rw [hfx] at h; exact Except.noConfusion h
    | ok y =>
      rw [hfx, except_bind_ok] at h
      cases hrest : xs.mapM f with
      | error e => rw [hrest] at h; exact Except.noConfusion h
      | ok ys =>
        rw [hrest, except_bind_ok] at h
        have h' : (Except.ok (y :: ys) : Except PyErr (List β)) = .ok out := h
        injection h' with h'
        subst h'
        rcases List.mem_cons.mp hb with hby | hmem
        · refine ⟨x, List.mem_cons_self x xs, ?_⟩
          rw [hby]
          exact hfx
        · obtain ⟨a, ha, hfa⟩ := ih ys hrest b hmem
          exact ⟨a, List.mem_cons_of_mem x ha, hfa⟩

/-- Claim C10, confirmed.  Every value produced by iterating a relation
or by Relation.select is a raw string or None: iteration decodes each
line without the schema's fields, so no value is ever cast into a
declared datatype, and select only projects those same raw values. -/
theorem claim_C10_raw_values (fields : List Field) (lines : List Str)
    (names : List Str) :
    (∀ vs, Except.ok vs ∈ relationIter lines → ∀ v ∈ vs,
        (∃ s, v = Value.text s) ∨ v = Value.null)
    ∧ (∀ out, relationSelect fields lines names = .ok out →
        ∀ r ∈ out, ∀ v ∈ r, (∃ s, v = Value.text s) ∨ v = Value.null) := by
  constructor
  · intro vs hvs v hv
    rw [relationIter, List.mem_map] at hvs
    obtain ⟨l, _, hl⟩ := hvs
    exact decode_none_raw l vs hl v hv
  · intro out hout r hr v hv
    cases names with
    | nil =>
      rw [relationSelect] at hout
      obtain ⟨l, _, hl⟩ := mapM_mem_ex (fun l => decode l none) lines out hout r hr
      exact decode_none_raw l r hl v hv
    | cons n ns =>
      rw [relationSelect] at hout
      cases hidx : (n :: ns).mapM (resolveIndex fields) with
      | error e => rw [hidx] at hout; exact Except.noConfusion hout
      | ok indices =>
        rw [hidx] at hout
        obtain ⟨l, _, hl⟩ := mapM_mem_ex (projectRecord indices) lines out hout r hr
        unfold projectRecord at hl
        cases hdec : decode l none with
        | error e => rw [hdec] at hl; exact Except.noConfusion hl
        | ok record =>
          rw [hdec] at hl
          obtain ⟨i, _, hpi⟩ := mapM_mem_ex (fun i => pyIndex record i) indices r hl v hv
          have hvrec : v ∈ record := by
            unfold pyIndex at hpi
            cases hg : record.get? i with
            | none => rw [hg] at hpi; exact Except.noConfusion hpi
            | some w =>
              rw [hg] at hpi
              injection hpi with hw
              subst hw
              exact List.get?_mem hg
          exact decode_none_raw l record hdec v hvrec

/-- Claim C10, witness: selecting the i-id column of a one-line relation
yields the raw string "10", classified as raw text. -/
theorem claim_C10_witness :
    (∃ s, Value.text (str "10") = Value.text s)
    ∨ Value.text (str "10") = Value.null := by
  exact (claim_C10_raw_values
      [mkField (str "i-id") (str ":integer") [] none,
       mkField (str "i-input") (str ":string") [] none]
      [str "10@It rained."] [str "i-id"]).2
    [[Value.text (str "10")]] (by decide) [Value.text (str "10")] (by decide)
    (Value.text (str "10")) (by decide)

/-- Claim C5, counterexample.  Writing zero records with append=True and
gzip=True onto a pre-existing nonempty compressed destination keeps the
final gzip flag true (append_nonempty holds), so the copy goes through
the gzip writer and the resulting .gz file still holds compressed
content. -/
theorem claim_C5_counterexample :
    writeTable true ⟨none, some ⟨100, 5, true⟩⟩ [] [] true (some true) 6
      = .ok ⟨none, some ⟨120, 6, true⟩⟩
    ∧ (⟨120, 6, true⟩ : DiskFile).compressed = true := by
  decide

/-- Claim C5, amended.  Writing zero records produces no compressed
file provided the call does not append onto an existing nonempty .gz
destination: when append is off, or the .gz file is absent or empty,
the surviving files after the write hold no gzip-compressed content,
whatever gzip flag was requested. -/
theorem claim_C5_empty_write (dirOk : Bool) (st : TableFiles)
    (fields : List Field) (append : Bool) (gzipOpt : Option Bool)
    (now : Nat) (post : TableFiles)
    (hpre : append = false ∨ st.gz = none ∨ ∃ d, st.gz = some d ∧ d.size = 0)
    (hok : writeTable dirOk st [] fields append gzipOpt now = .ok post) :
    ∀ d, post.gz = some d → d.compressed = false := by
  intro d hd
  unfold writeTable at hok
  cases dirOk with
  | false => exact Except.noConfusion hok
  | true =>
    rw [if_pos rfl] at hok
    rw [show encodeLines [] fields = Except.ok [] from rfl] at hok
    simp only [] at hok
    cases hgz : gzipOpt.getD (use_gz st) with
    | false =>
      rw [hgz] at hok
      simp only [Bool.false_and, if_neg (by decide : ¬(False : Prop))] at hok
      injection hok with hok
      subst hok
      exact absurd hd (by simp)
    | true =>
      rw [hgz] at hok
      simp only [destOf, if_pos trivial, Bool.true_and,
        show tmpLenOf [] = 0 from rfl,
        show (decide ((0 : Nat) ≠ 0)) = false from rfl, Bool.false_or] at hok
      cases hstgz : st.gz with
      | none =>
        rw [hstgz] at hok
        simp only [appendNonemptyOf, Bool.and_false, newDestOf] at hok
        injection hok with hok
        subst hok
        injection hd with hd
        subst hd
        rfl
      | some d0 =>
        rw [hstgz] at hok
        rcases hpre with hap | hnone | ⟨d1, hd1, hsz⟩
        · subst hap
          simp only [appendNonemptyOf, Bool.false_and, newDestOf,
            Bool.false_eq_true, if_false] at hok
          injection hok with hok
          subst hok
          injection hd with hd
          subst hd
          rfl
        · rw [hstgz] at hnone; exact Option.noConfusion hnone
        · rw [hstgz] at hd1
          injection hd1 with hd1
          subst hd1
          simp only [appendNonemptyOf,
            show (decide ((0 : Nat) < 0)) = false from by decide,
            hsz, Bool.and_false, newDestOf, Bool.false_and,
            Bool.false_or] at hok
          cases append with
          | false =>
            simp only [Bool.false_eq_true, if_false] at hok
            injection hok with hok
            subst hok
            injection hd with hd
            subst hd
            rfl
          | true =>
            simp only [if_pos rfl] at hok
            injection hok with hok
            subst hok
            injection hd with hd
            subst hd
            rfl

/-- Claim C7, code bug.  Redefining a table and a stray pre-table line
do raise the schema error, but a field line without a flags group
(here "x" after header "tt:") makes the parser call .split() on the
regex's None flags group, so it fails with AttributeError, not with
the schema error the claim requires for every malformed non-blank
line. -/
theorem claim_C7_schema_errors :
    parseSchema (str "tt:\ntt:")
      = .error (.schemaError (str "table redefined"))
    ∧ parseSchema (str "x y")
      = .error (.schemaError (str "invalid line in schema file"))
    ∧ parseSchema (str "tt:\nx") = .error PyErr.attributeError
    ∧ isSchemaError (parseSchema (str "tt:\nx")) = false := by
  decide

/- Splitting a delimiter-join recovers the joined strings. -/
theorem pySplit_joinWith (d : Char) :
    ∀ (xs : List Str), xs ≠ [] → (∀ x ∈ xs, ∀ c ∈ x, c ≠ d) →
      pySplit d (joinWith d xs) = xs := by
  intro xs
  induction xs with
  | nil => intro h _; exact absurd rfl h
  | cons x rest ih =>
    intro _ hall
    cases rest with
    | nil =>
      rw [show joinWith d [x] = x from rfl]
      exact pySplit_no_delim d x (hall x (by simp))
    | cons y ys =>
      rw [show joinWith d (x :: y :: ys) = x ++ d :: joinWith d (y :: ys)
        from rfl,
        pySplit_append d x _ (hall x (by simp)),
        ih (by simp) (fun z hz c hc => hall z (by simp [hz]) c hc)]

theorem pySplit_joinWith_append (d : Char) :
    ∀ (xs : List Str) (b : Str), xs ≠ [] → (∀ x ∈ xs, ∀ c ∈ x, c ≠ d) →
      pySplit d (joinWith d xs ++ d :: b) = xs ++ pySplit d b := by
  intro xs
  induction xs with
  | nil => intro b h _; exact absurd rfl h
  | cons x rest ih =>
    intro b _ hall
    cases rest with
    | nil =>
      rw [show joinWith d [x] = x from rfl,
        pySplit_append d x b (hall x (by simp))]
      rfl
    | cons y ys =>
      rw [show joinWith d (x :: y :: ys) = x ++ d :: joinWith d (y :: ys)
        from rfl, List.cons_append, List.append_assoc]
      rw [show (d :: joinWith d (y :: ys)) ++ d :: b
          = d :: (joinWith d (y :: ys) ++ d :: b) from rfl]
      rw [pySplit_append d x _ (hall x (by simp)),
        ih b (by simp) (fun z hz c hc => hall z (by simp [hz]) c hc)]

/- The one-step unfolding of the schema parser on a line. -/
theorem parseSchemaLines_cons (l : Str) (rest : List Str)
    (done : List (Str × List Field)) (cur : Option (Str × List Field)) :
    parseSchemaLines (l :: rest) done cur =
      (match headerMatch (stripStr l) with
       | some tname =>
         if tname ∈ (done ++ flushCur cur).map Prod.fst
         then .error (.schemaError (str "table redefined"))
         else parseSchemaLines rest (done ++ flushCur cur) (some (tname, []))
       | none =>
         if stripStr l = [] then parseSchemaLines rest done cur
         else
           match cur with
           | none => .error (.schemaError (str "invalid line in schema file"))
           | some (n, fs) =>
             match fieldFromLine (stripStr l) with
             | .error e => .error e
             | .ok f => parseSchemaLines rest done (some (n, f :: fs))) := rfl

/- A trailing blank line does not change the parse. -/
theorem parse_trailing_blank :
    ∀ (ls : List Str) (done : List (Str × List Field))
      (cur : Option (Str × List Field)),
      parseSchemaLines (ls ++ [([] : Str)]) done cur
        = parseSchemaLines ls done cur := by
  intro ls
  induction ls with
  | nil => intro done cur; rfl
  | cons l rest ih =>
    intro done cur
    rw [List.cons_append, parseSchemaLines_cons, parseSchemaLines_cons]
    cases hh : headerMatch (stripStr l) with
    | some tname =>
      simp only []
      by_cases hmem : tname ∈ (done ++ flushCur cur).map Prod.fst
      · rw [if_pos hmem, if_pos hmem]
      · rw [if_neg hmem, if_neg hmem, ih]
    | none =>
      simp only []
      by_cases hl : stripStr l = []
      · rw [if_pos hl, if_pos hl, ih]
      · rw [if_neg hl, if_neg hl]
        cases cur with
        | none => rfl
        | some nc =>
          cases hf : fieldFromLine (stripStr l) with
          | error e => rfl
          | ok f => simp only []; rw [ih]

/- One-step unfoldings of the condition parser at positive fuel. -/
theorem disj_succ (fuel : Nat) (ts : List (Nat × Str)) :
    parse_condition_disjunction (fuel + 1) ts =
      (match disjLoop fuel [] ts with
       | .error e => .error e
       | .ok (conds, ts') =>
         match conds with
         | [] => .ok (none, ts')
         | [c] => .ok (some c, ts')
         | _ => .ok (some (.disj conds), ts')) := rfl

theorem disjLoop_succ (fuel : Nat) (acc : List Cond) (ts : List (Nat × Str)) :
    disjLoop (fuel + 1) acc ts =
      (match parse_condition_conjunction fuel ts with
       | .error e => .error e
       | .ok (copt, ts1) =>
         let acc' := match copt with
                     | some c => acc ++ [c]
                     | none => acc
         match peekT ts1 with
         | .error e => .error e
         | .ok (_, t1) =>
           if t1 = str "|" ∨ t1 = str "||" ∨ t1 = str "or" then
             match nextT ts1 with
             | .error e => .error e
             | .ok (_, ts2) =>
               match peekT ts2 with
               | .error e => .error e
               | .ok _ => disjLoop fuel acc' ts2
           else .ok (acc', ts1)) := rfl

theorem conj_succ (fuel : Nat) (ts : List (Nat × Str)) :
    parse_condition_conjunction (fuel + 1) ts =
      (match peekT ts with
       | .error e => .error e
       | .ok (g, t) =>
         match conjLoop fuel [] g t ts with
         | .error e => .error e
         | .ok (conds, ts') =>
           match conds with
           | [] => .ok (none, ts')
           | [c] => .ok (some c, ts')
           | _ => .ok (some (.conj conds), ts')) := rfl

theorem conjLoop_succ (fuel : Nat) (acc : List Cond) (g : Nat) (t : Str)
    (ts : List (Nat × Str)) :
    conjLoop (fuel + 1) acc g t ts =
      (if g = 2 ∧ (toLowerStr t = str "!" ∨ toLowerStr t = str "not") then
        match parse_condition_negation fuel ts with
        | .error e => .error e
        | .ok (c, ts1) => conjAfter fuel (acc ++ [c]) ts1
      else if g = 3 ∧ t = str "(" then
        match parse_condition_group fuel ts with
        | .error e => .error e
        | .ok (c, ts1) => conjAfter fuel (acc ++ [c]) ts1
      else if g = 3 ∧ t = str ")" then .ok (acc, ts)
      else if g = 10 then
        match parse_condition_statement ts with
        | .error e => .error e
        | .ok (c, ts1) => conjAfter fuel (acc ++ [c]) ts1
      else .error (.tsqlSyntaxError
        (str "expected a negation, group or column"))) := rfl

theorem conjAfter_succ (fuel : Nat) (acc : List Cond)
    (ts : List (Nat × Str)) :
    conjAfter (fuel + 1) acc ts =
      (match peekT ts with
       | .error e => .error e
       | .ok (_, t) =>
         if toLowerStr t = str "&" ∨ toLowerStr t = str "&&"
             ∨ toLowerStr t = str "and" then
           match nextT ts with
           | .error e => .error e
           | .ok (_, ts1) =>
             match peekT ts1 with
             | .error e => .error e
             | .ok (g2, t2) => conjLoop fuel acc g2 t2 ts1
         else .ok (acc, ts)) := rfl

theorem neg_succ (fuel : Nat) (ts : List (Nat × Str)) :
    parse_condition_negation (fuel + 1) ts =
      (match nextT ts with
       | .error e => .error e
       | .ok ((g, t), ts1) =>
         if g = 2 ∧ (t = str "!" ∨ t = str "not") then
           match parse_condition_disjunction fuel ts1 with
           | .error e => .error e
           | .ok (copt, ts2) => .ok (.neg copt, ts2)
         else .error (.tsqlSyntaxError (str "expected a negation"))) := rfl

theorem group_succ (fuel : Nat) (ts : List (Nat × Str)) :
    parse_condition_group (fuel + 1) ts =
      (match nextT ts with
       | .error e => .error e
       | .ok ((g, t), ts1) =>
         if g = 3 ∧ t = str "(" then
           match parse_condition_disjunction fuel ts1 with
           | .error e => .error e
           | .ok (copt, ts2) =>
             match nextT ts2 with
             | .error e => .error e
             | .ok ((g2, t2), ts3) =>
               if g2 = 3 ∧ t2 = str ")" then
                 match copt with
                 | none => .error .typeError
                 | some c => .ok (c, ts3)
               else .error (.tsqlSyntaxError (str "expected a closing paren"))
         else .error (.tsqlSyntaxError (str "expected an opening paren"))) := rfl

/- condListOk is the pointwise condition. -/
theorem condListOk_iff : ∀ (cs : List Cond),
    condListOk cs = true ↔ ∀ c ∈ cs, condOk c = true := by
  intro cs
  induction cs with
  | nil => simp [condListOk]
  | cons c cs' ih =>
    rw [condListOk, Bool.and_eq_true, ih]
    constructor
    · intro ⟨h1, h2⟩ d hd
      rcases List.mem_cons.mp hd with rfl | hd
      · exact h1
      · exact h2 d hd
    · intro h
      exact ⟨h c (by simp), fun d hd => h d (by simp [hd])⟩

/- The literal-typing tail of a statement parse only builds
   comparisons. -/
theorem statement_tail_ok (op col : Str) (g3 : Nat) (val : Str)
    (ts3 ts' : List (Nat × Str)) (c : Cond)
    (h : (if (op = str "~" ∨ op = str "!~") ∧ ¬(g3 = 4 ∨ g3 = 5) then
            (.error (.tsqlSyntaxError (str "regex operator needs a string"))
              : Except PyErr (Cond × List (Nat × Str)))
          else if (op = str "<" ∨ op = str "<=" ∨ op = str ">"
                ∨ op = str ">=")
              ∧ ¬(g3 = 6 ∨ g3 = 7 ∨ g3 = 8 ∨ g3 = 9) then
            .error (.tsqlSyntaxError
              (str "ordering operator needs an integer or date"))
          else if g3 = 6 ∨ g3 = 7 ∨ g3 = 8 then
            .ok (.cmp op col (.vdate val), ts3)
          else if g3 = 9 then
            match pyInt val with
            | .error e => .error e
            | .ok n => .ok (.cmp op col (.vint n), ts3)
          else .ok (.cmp op col (.vstr val), ts3)) = .ok (c, ts')) :
    condOk c = true := by
  split at h
  · exact Except.noConfusion h
  · split at h
    · exact Except.noConfusion h
    · split at h
      · injection h with h
        injection h with h _
        subst h
        rfl
      · split at h
        · cases hpi : pyInt val with
          | error e => rw [hpi] at h; exact Except.noConfusion h
          | ok n =>
            rw [hpi] at h
            injection h with h
            injection h with h _
            subst h
            rfl
        · injection h with h
          injection h with h _
          subst h
          rfl

/- Every condition a statement parse returns satisfies condOk. -/
theorem statement_cond_ok (ts : List (Nat × Str)) (c : Cond)
    (ts' : List (Nat × Str))
    (h : parse_condition_statement ts = .ok (c, ts')) : condOk c = true := by
  unfold parse_condition_statement at h
  cases hn1 : nextT ts with
  | error e => rw [hn1] at h; exact Except.noConfusion h
  | ok r1 =>
    obtain ⟨⟨g1, col⟩, ts1⟩ := r1
    rw [hn1] at h
    simp only [] at h
    by_cases hg1 : g1 = 10
    · rw [if_pos hg1] at h
      cases hn2 : nextT ts1 with
      | error e => rw [hn2] at h; exact Except.noConfusion h
      | ok r2 =>
        obtain ⟨⟨g2, op0⟩, ts2⟩ := r2
        rw [hn2] at h
        simp only [] at h
        by_cases hg2 : g2 = 2
        · rw [if_pos hg2] at h
          cases hn3 : nextT ts2 with
          | error e => rw [hn3] at h; exact Except.noConfusion h
          | ok r3 =>
            obtain ⟨⟨g3, val⟩, ts3⟩ := r3
            rw [hn3] at h
            dsimp only at h
            exact statement_tail_ok _ col g3 val ts3 ts' c h
        · rw [if_neg hg2] at h
          exact Except.noConfusion h
    · rw [if_neg hg1] at h
      exact Except.noConfusion h

/- The parser invariant: every condition produced by the condition
   parser has only and/or nodes with at least two children. -/
theorem parser_cond_ok : ∀ fuel : Nat,
    (∀ ts copt ts', parse_condition_disjunction fuel ts = .ok (copt, ts') →
      ∀ c, copt = some c → condOk c = true)
  ∧ (∀ acc ts cs ts', disjLoop fuel acc ts = .ok (cs, ts') →
      (∀ c ∈ acc, condOk c = true) → ∀ c ∈ cs, condOk c = true)
  ∧ (∀ ts copt ts', parse_condition_conjunction fuel ts = .ok (copt, ts') →
      ∀ c, copt = some c → condOk c = true)
  ∧ (∀ acc g t ts cs ts', conjLoop fuel acc g t ts = .ok (cs, ts') →
      (∀ c ∈ acc, condOk c = true) → ∀ c ∈ cs, condOk c = true)
  ∧ (∀ acc ts cs ts', conjAfter fuel acc ts = .ok (cs, ts') →
      (∀ c ∈ acc, condOk c = true) → ∀ c ∈ cs, condOk c = true)
  ∧ (∀ ts c ts', parse_condition_negation fuel ts = .ok (c, ts') →
      condOk c = true)
  ∧ (∀ ts c ts', parse_condition_group fuel ts = .ok (c, ts') →
      condOk c = true) := by
  intro fuel
  induction fuel with
  | zero =>
    refine ⟨?_, ?_, ?_, ?_, ?_, ?_, ?_⟩
    · intro ts copt ts' h c hc; exact Except.noConfusion h
    · intro acc ts cs ts' h hacc c hc; exact Except.noConfusion h
    · intro ts copt ts' h c hc; exact Except.noConfusion h
    · intro acc g t ts cs ts' h hacc c hc; exact Except.noConfusion h
    · intro acc ts cs ts' h hacc c hc; exact Except.noConfusion h
    · intro ts c ts' h; exact Except.noConfusion h
    · intro ts c ts' h; exact Except.noConfusion h
  | succ fuel ih =>
    obtain ⟨ihD, ihDL, ihC, ihCL, ihCA, ihN, ihG⟩ := ih
    refine ⟨?_, ?_, ?_, ?_, ?_, ?_, ?_⟩
    · -- disjunction
      intro ts copt ts' h c hc
      rw [disj_succ] at h
      cases hL : disjLoop fuel [] ts with
      | error e => rw [hL] at h; exact Except.noConfusion h
      | ok r =>
        obtain ⟨cs, ts1⟩ := r
        rw [hL] at h
        have hcs : ∀ d ∈ cs, condOk d = true :=
          ihDL [] ts cs ts1 hL (fun d hd => absurd hd (List.not_mem_nil d))
        cases cs with
        | nil =>
          injection h with h
          injection h with h1 _
          rw [← h1] at hc
          exact Option.noConfusion hc
        | cons c0 cs0 =>
          cases cs0 with
          | nil =>
            injection h with h
            injection h with h1 _
            rw [← h1] at hc
            injection hc with hc
            rw [← hc]
            exact hcs c0 (by simp)
          | cons c1 cs1 =>
            injection h with h
            injection h with h1 _
            rw [← h1] at hc
            injection hc with hc
            rw [← hc]
            show (decide (2 ≤ (c0 :: c1 :: cs1).length)
              && condListOk (c0 :: c1 :: cs1)) = true
            rw [Bool.and_eq_true]
            exact ⟨by simp, (condListOk_iff _).mpr hcs⟩
    · -- disjunction loop
      intro acc ts cs ts' h hacc c hc
      rw [disjLoop_succ] at h
      cases hC : parse_condition_conjunction fuel ts with
      | error e => rw [hC] at h; exact Except.noConfusion h
      | ok r =>
        obtain ⟨copt, ts1⟩ := r
        rw [hC] at h
        dsimp only at h
        have hacc' : ∀ d ∈ (match copt with
            | some c0 => acc ++ [c0]
            | none => acc), condOk d = true := by
          cases copt with
          | none => simpa using hacc
          | some c0 =>
            intro d hd
            rcases List.mem_append.mp hd with hd | hd
            · exact hacc d hd
            · rcases List.mem_cons.mp hd with rfl | hd
              · exact ihC ts _ ts1 hC d rfl
              · exact absurd hd (List.not_mem_nil d)
        cases hp : peekT ts1 with
        | error e => rw [hp] at h; exact Except.noConfusion h
        | ok pt =>
          obtain ⟨g1, t1⟩ := pt
          rw [hp] at h
          simp only [] at h
          by_cases ht : t1 = str "|" ∨ t1 = str "||" ∨ t1 = str "or"
          · rw [if_pos ht] at h
            cases hn : nextT ts1 with
            | error e => rw [hn] at h; exact Except.noConfusion h
            | ok nr =>
              obtain ⟨_, ts2⟩ := nr
              rw [hn] at h
              simp only [] at h
              cases hp2 : peekT ts2 with
              | error e => rw [hp2] at h; exact Except.noConfusion h
              | ok _ =>
                rw [hp2] at h
                exact ihDL _ ts2 cs ts' h hacc' c hc
          · rw [if_neg ht] at h
            injection h with h
            injection h with h1 _
            exact hacc' c (h1 ▸ hc)
    · -- conjunction
      intro ts copt ts' h c hc
      rw [conj_succ] at h
      cases hp : peekT ts with
      | error e => rw [hp] at h; exact Except.noConfusion h
      | ok pt =>
        obtain ⟨g, t⟩ := pt
        rw [hp] at h
        simp only [] at h
        cases hL : conjLoop fuel [] g t ts with
        | error e => rw [hL] at h; exact Except.noConfusion h
        | ok r =>
          obtain ⟨cs, ts1⟩ := r
          rw [hL] at h
          have hcs : ∀ d ∈ cs, condOk d = true :=
            ihCL [] g t ts cs ts1 hL (fun d hd => absurd hd (List.not_mem_nil d))
          cases cs with
          | nil =>
            injection h with h
            injection h with h1 _
            rw [← h1] at hc
            exact Option.noConfusion hc
          | cons c0 cs0 =>
            cases cs0 with
            | nil =>
              injection h with h
              injection h with h1 _
              rw [← h1] at hc
              injection hc with hc
              rw [← hc]
              exact hcs c0 (by simp)
            | cons c1 cs1 =>
              injection h with h
              injection h with h1 _
              rw [← h1] at hc
              injection hc with hc
              rw [← hc]
              show (decide (2 ≤ (c0 :: c1 :: cs1).length)
                && condListOk (c0 :: c1 :: cs1)) = true
              rw [Bool.and_eq_true]
              exact ⟨by simp, (condListOk_iff _).mpr hcs⟩
    · -- conjunction loop
      intro acc g t ts cs ts' h hacc c hc
      rw [conjLoop_succ] at h
      by_cases h1 : g = 2 ∧ (toLowerStr t = str "!" ∨ toLowerStr t = str "not")
      · rw [if_pos h1] at h
        cases hN : parse_condition_negation fuel ts with
        | error e => rw [hN] at h; exact Except.noConfusion h
        | ok r =>
          obtain ⟨c0, ts1⟩ := r
          rw [hN] at h
          simp only [] at h
          refine ihCA _ ts1 cs ts' h ?_ c hc
          intro d hd
          rcases List.mem_append.mp hd with hd | hd
          · exact hacc d hd
          · rcases List.mem_cons.mp hd with rfl | hd
            · exact ihN ts _ ts1 hN
            · exact absurd hd (List.not_mem_nil d)
      · rw [if_neg h1] at h
        by_cases h2 : g = 3 ∧ t = str "("
        · rw [if_pos h2] at h
          cases hG : parse_condition_group fuel ts with
          | error e => rw [hG] at h; exact Except.noConfusion h
          | ok r =>
            obtain ⟨c0, ts1⟩ := r
            rw [hG] at h
            simp only [] at h
            refine ihCA _ ts1 cs ts' h ?_ c hc
            intro d hd
            rcases List.mem_append.mp hd with hd | hd
            · exact hacc d hd
            · rcases List.mem_cons.mp hd with rfl | hd
              · exact ihG ts _ ts1 hG
              · exact absurd hd (List.not_mem_nil d)
        · rw [if_neg h2] at h
          by_cases h3 : g = 3 ∧ t = str ")"
          · rw [if_pos h3] at h
            injection h with h
            injection h with hl _
            exact hacc c (hl ▸ hc)
          · rw [if_neg h3] at h
            by_cases h4 : g = 10
            · rw [if_pos h4] at h
              cases hS : parse_condition_statement ts with
              | error e => rw [hS] at h; exact Except.noConfusion h
              | ok r =>
                obtain ⟨c0, ts1⟩ := r
                rw [hS] at h
                simp only [] at h
                refine ihCA _ ts1 cs ts' h ?_ c hc
                intro d hd
                rcases List.mem_append.mp hd with hd | hd
                · exact hacc d hd
                · rcases List.mem_cons.mp hd with rfl | hd
                  · exact statement_cond_ok ts _ ts1 hS
                  · exact absurd hd (List.not_mem_nil d)
            · rw [if_neg h4] at h
              exact Except.noConfusion h
    · -- conjunction continuation
      intro acc ts cs ts' h hacc c hc
      rw [conjAfter_succ] at h
      cases hp : peekT ts with
      | error e => rw [hp] at h; exact Except.noConfusion h
      | ok pt =>
        obtain ⟨g1, t1⟩ := pt
        rw [hp] at h
        simp only [] at h
        by_cases ht : toLowerStr t1 = str "&" ∨ toLowerStr t1 = str "&&"
            ∨ toLowerStr t1 = str "and"
        · rw [if_pos ht] at h
          cases hn : nextT ts with
          | error e => rw [hn] at h; exact Except.noConfusion h
          | ok nr =>
            obtain ⟨_, ts1⟩ := nr
            rw [hn] at h
            simp only [] at h
            cases hp2 : peekT ts1 with
            | error e => rw [hp2] at h; exact Except.noConfusion h
            | ok pt2 =>
              obtain ⟨g2, t2⟩ := pt2
              rw [hp2] at h
              simp only [] at h
              exact ihCL acc g2 t2 ts1 cs ts' h hacc c hc
        · rw [if_neg ht] at h
          injection h with h
          injection h with h1 _
          exact hacc c (h1 ▸ hc)
    · -- negation
      intro ts c ts' h
      rw [neg_succ] at h
      cases hn : nextT ts with
      | error e => rw [hn] at h; exact Except.noConfusion h
      | ok nr =>
        obtain ⟨⟨g, t⟩, ts1⟩ := nr
        rw [hn] at h
        dsimp only at h
        split at h
        · cases hd : parse_condition_disjunction fuel ts1 with
          | error e => rw [hd] at h; exact Except.noConfusion h
          | ok r =>
            obtain ⟨copt, ts2⟩ := r
            rw [hd] at h
            injection h with h
            injection h with h1 _
            rw [← h1]
            cases copt with
            | none => rfl
            | some c0 =>
              show condOk c0 = true
              exact ihD ts1 _ ts2 hd c0 rfl
        · exact Except.noConfusion h
    · -- group
      intro ts c ts' h
      rw [group_succ] at h
      cases hn : nextT ts with
      | error e => rw [hn] at h; exact Except.noConfusion h
      | ok nr =>
        obtain ⟨⟨g, t⟩, ts1⟩ := nr
        rw [hn] at h
        dsimp only at h
        split at h
        · cases hd : parse_condition_disjunction fuel ts1 with
          | error e => rw [hd] at h; exact Except.noConfusion h
          | ok r =>
            obtain ⟨copt, ts2⟩ := r
            rw [hd] at h
            simp only [] at h
            cases hn2 : nextT ts2 with
            | error e => rw [hn2] at h; exact Except.noConfusion h
            | ok nr2 =>
              obtain ⟨⟨g2, t2⟩, ts3⟩ := nr2
              rw [hn2] at h
              dsimp only at h
              split at h
              · cases copt with
                | none => exact Except.noConfusion h
                | some c0 =>
                  injection h with h
                  injection h with h1 _
                  rw [← h1]
                  exact ihD ts1 _ ts2 hd c0 rfl
              · exact Except.noConfusion h
        · exact Except.noConfusion h

/- A where clause only ever holds parser-built conditions. -/
theorem where_cond_ok (fuel : Nat) (ts : List (Nat × Str))
    (copt : Option Cond) (ts' : List (Nat × Str))
    (h : parse_select_where fuel ts = .ok (copt, ts')) :
    ∀ c, copt = some c → condOk c = true := by
  intro c hc
  unfold parse_select_where at h
  cases hp : peekT ts with
  | error e => rw [hp] at h; exact Except.noConfusion h
  | ok pt =>
    obtain ⟨g, t⟩ := pt
    rw [hp] at h
    simp only [] at h
    by_cases hw : t = str "where"
    · rw [if_pos hw] at h
      cases hn : nextT ts with
      | error e => rw [hn] at h; exact Except.noConfusion h
      | ok nr =>
        obtain ⟨_, ts1⟩ := nr
        rw [hn] at h
        simp only [] at h
        exact (parser_cond_ok fuel).1 ts1 copt ts' h c hc
    · rw [if_neg hw] at h
      injection h with h
      injection h with h1 _
      rw [← h1] at hc
      exact Option.noConfusion hc

/-- Claim C3, counterexample.  The accepted query "i-id where a == 1 &
b == 2 & c == 3" parses to a where clause whose single and-node holds
all three comparisons: the parser builds n-ary 'and'/'or' tuples, not
the binary And(left, right)/Or(left, right) of the claim. -/
theorem claim_C3_counterexample :
    lexParseSelect (str "i-id where a == 1 & b == 2 & c == 3")
      = .ok ({ projection := .cols [str "i-id"], tables := [],
               whereCond := some (.conj
                 [.cmp (str "==") (str "a") (.vint 1),
                  .cmp (str "==") (str "b") (.vint 2),
                  .cmp (str "==") (str "c") (.vint 3)]) },
             [(1, str ".")])
    ∧ condExact2 (.conj
        [.cmp (str "==") (str "a") (.vint 1),
         .cmp (str "==") (str "b") (.vint 2),
         .cmp (str "==") (str "c") (.vint 3)]) = false := by
  decide

/-- Claim C3, amended.  For every token stream the select parser
accepts, the where-clause condition tree consists only of n-ary And and
Or nodes, Not nodes and comparisons, where every And and every Or node
has at least two children (a single child is unwrapped, an empty
conjunct list yields no condition). -/
theorem claim_C3_condition_arity (fuel : Nat) (ts : List (Nat × Str))
    (q : SelectQuery) (rest : List (Nat × Str))
    (h : parse_select fuel ts = .ok (q, rest)) :
    ∀ c, q.whereCond = some c → condOk c = true := by
  intro c hc
  unfold parse_select at h
  cases hp : peekT ts with
  | error e => rw [hp] at h; exact Except.noConfusion h
  | ok pt =>
    rw [hp] at h
    simp only [] at h
    cases hP : parse_select_projection fuel ts with
    | error e => rw [hP] at h; exact Except.noConfusion h
    | ok pr =>
      obtain ⟨proj, ts1⟩ := pr
      rw [hP] at h
      simp only [] at h
      cases hF : parse_select_from fuel ts1 with
      | error e => rw [hF] at h; exact Except.noConfusion h
      | ok fr =>
        obtain ⟨tables, ts2⟩ := fr
        rw [hF] at h
        simp only [] at h
        cases hW : parse_select_where fuel ts2 with
        | error e => rw [hW] at h; exact Except.noConfusion h
        | ok wr =>
          obtain ⟨copt, ts3⟩ := wr
          rw [hW] at h
          simp only [] at h
          split at h
          · exact Except.noConfusion h
          · injection h with h
            injection h with h1 _
            rw [← h1] at hc
            exact where_cond_ok fuel ts2 copt ts3 hW c hc

/-- Claim C3, witness: the parse of "i-id where a == 1 & b == 2" yields
an and-node with two children, which the arity check accepts. -/
theorem claim_C3_witness :
    condOk (.conj [.cmp (str "==") (str "a") (.vint 1),
                   .cmp (str "==") (str "b") (.vint 2)]) = true :=
  claim_C3_condition_arity 50
    [(10, str "i-id"), (1, str "where"), (10, str "a"), (2, str "=="),
     (9, str "1"), (2, str "&"), (10, str "b"), (2, str "=="),
     (9, str "2"), (1, str ".")]
    { projection := .cols [str "i-id"], tables := [],
      whereCond := some (.conj [.cmp (str "==") (str "a") (.vint 1),
                                .cmp (str "==") (str "b") (.vint 2)]) }
    [(1, str ".")] (by decide) _ rfl

/-- Claim C4, counterexample.  For two tables with no connecting key
path the search returns None, and the transitive join then subscripts
None (`path[1:]`), raising TypeError: the direct join is never
attempted, contrary to the claim that the caller proceeds to it. -/
theorem claim_C4_counterexample :
    id_path 10 (str "item", [str "i-id"]) (str "run", [str "run-id"])
        ⟨[(str "item", [str "i-id"]), (str "run", [str "run-id"])]⟩ = none
    ∧ transitive_join 10 (some (str "item", [str "i-id"]))
        (str "run", [str "run-id"])
        ⟨[(str "item", [str "i-id"]), (str "run", [str "run-id"])]⟩
      = .error PyErr.typeError
    ∧ (Except.error PyErr.typeError
        ≠ (.ok ([], true) : Except PyErr (List Str × Bool))) := by
  decide

/-- Claim C4, amended.  Whenever the breadth-first search finds no path
between the two tables, the transitive join raises TypeError at the
use of the missing path and performs no join at all — neither the
intermediate joins nor the direct join of the two tables. -/
theorem claim_C4_no_path (fuel : Nat) (t1 t2 : Str × List Str)
    (R : RelInfo) (h : id_path fuel t1 t2 R = none) :
    transitive_join fuel (some t1) t2 R = .error PyErr.typeError := by
  unfold transitive_join
  simp only []
  rw [h]

/-- Claim C4, witness: the two-table schema with disjoint keys hits
the TypeError branch. -/
theorem claim_C4_witness :
    transitive_join 10 (some (str "item", [str "i-id"]))
        (str "run", [str "run-id"])
        ⟨[(str "item", [str "i-id"]), (str "run", [str "run-id"])]⟩
      = .error PyErr.typeError :=
  claim_C4_no_path 10 (str "item", [str "i-id"]) (str "run", [str "run-id"])
    ⟨[(str "item", [str "i-id"]), (str "run", [str "run-id"])]⟩ (by decide)

/-- Claim C5, witness: an overwriting empty write with gzip=True onto a
table that only had a plain text file leaves an empty uncompressed file
at the .gz path. -/
theorem claim_C5_witness :
    (⟨0, 7, false⟩ : DiskFile).compressed = false :=
  claim_C5_empty_write true ⟨some ⟨50, 1, false⟩, none⟩ [] true (some true) 7
    ⟨none, some ⟨0, 7, false⟩⟩ (Or.inr (Or.inl rfl)) (by decide)
    ⟨0, 7, false⟩ rfl

end PyDelphin
